import Mathlib

/-!
Verification development for the fractal-it repository.

The definitions below are a shallow embedding of the TypeScript sources:

* `src/src/utils/htmlAnalyzer.ts` — `generateStructuralHash`, `simpleHash`,
  `extractTagCounts`;
* `src/fractal/fractalAlgorithms.ts` (`FractalAlgorithms`) — the Mandelbrot,
  Julia, Lorenz and fractal-tree generators;
* `src/fractal/enhancedGenerator.ts` (`EnhancedFractalGenerator`) —
  `createDefaultSections` and its helpers;
* `src/src/content/enhancedContent.ts` (`FractalViewer`) — the mode cache and
  the analysis-failure fallback;
* `src/src/fractal/optimizedGenerator.ts` (`OptimizedFractalGenerator`) —
  `switchMode`, `reduceQuality` and the per-frame degrade path.

Strings are modelled as `List Char` (JavaScript UTF-16 code units; all inputs
considered here are in the basic plane, where `Char.toNat` agrees with
`charCodeAt`). JavaScript numbers are modelled as `ℚ` where the code relies on
real arithmetic, as `ℤ` where the code forces 32-bit integers (`| 0`, `& x`,
`<< n`), and as `ℕ` for DOM-derived counts. Scanning loops are written with an
explicit fuel argument equal to the input length so that every definition is
structurally recursive and can be evaluated by the kernel; a fuel-irrelevance
lemma shows the fuel does not affect the result.
-/

namespace FractalIt

/-! ## JavaScript primitive helpers -/

/-- Wrap an integer to the signed 32-bit range, as JavaScript `| 0`, `x & x`
and the result of `<<` do (`ToInt32` of ECMA-262). -/
def toInt32 (n : ℤ) : ℤ := (n + 2 ^ 31) % 2 ^ 32 - 2 ^ 31

/-- Truncation of a rational toward zero, as JavaScript's `%` operator uses. -/
def ratTrunc (q : ℚ) : ℤ := if 0 ≤ q then ⌊q⌋ else -⌊-q⌋

/-- JavaScript `a % b` on numbers: `a - b * trunc(a / b)`. -/
def jsMod (a b : ℚ) : ℚ := a - b * ratTrunc (a / b)

/-- Digit character for base-36 rendering, as `Number.prototype.toString(36)`:
`0`-`9` then `a`-`z`. -/
def digit36 (n : ℕ) : Char :=
  if n < 10 then Char.ofNat (48 + n) else Char.ofNat (87 + n)

/-- Base-36 digits of a natural number, most significant first.  The first
argument is fuel (`n` itself suffices since `n / 36 < n`). -/
def natToBase36Go : ℕ → ℕ → List Char → List Char
  | 0, n, acc => digit36 n :: acc
  | f + 1, n, acc =>
    if n < 36 then digit36 n :: acc
    else natToBase36Go f (n / 36) (digit36 (n % 36) :: acc)

/-- Base-36 rendering of a natural number. -/
def natToBase36 (n : ℕ) : List Char := natToBase36Go n n []

/-- Base-36 rendering of an integer, with a leading `-` for negative values,
as JavaScript `hash.toString(36)`. -/
def intToBase36 (n : ℤ) : List Char :=
  if n < 0 then '-' :: natToBase36 n.natAbs else natToBase36 n.natAbs

/-! ## The 32-bit rolling hash (`simpleHash` in `htmlAnalyzer.ts`)

```ts
let hash = 0;
for (let i = 0; i < str.length; i++) {
  const char = str.charCodeAt(i);
  hash = (hash << 5) - hash + char;
  hash = hash & hash;
}
return hash.toString(36);
```
`hash << 5` wraps the shifted value to signed 32 bits; the subtraction and
addition are exact in doubles at these magnitudes; `hash & hash` wraps the
result to signed 32 bits again. -/

/-- One step of the rolling hash: `hash = (hash << 5) - hash + char` followed
by `hash = hash & hash`. -/
def hashStep (h : ℤ) (c : Char) : ℤ := toInt32 (toInt32 (h * 32) - h + c.toNat)

/-- The integer value of the rolling hash over a string. -/
def simpleHashInt (s : List Char) : ℤ := s.foldl hashStep 0

/-- Function `HTMLAnalyzer.simpleHash`: the rolling hash rendered in base 36. -/
def simpleHash (s : List Char) : List Char := intToBase36 (simpleHashInt s)

/-- Method `EnhancedFractalGenerator.simpleHash`: same loop, but the class returns
`Math.abs(hash)` as a number instead of rendering it. -/
def simpleHashAbs (s : List Char) : ℕ := (simpleHashInt s).natAbs

/-! ## Normalisation passes of `generateStructuralHash`

```ts
const simplified = html
  .replace(/\s+/g, " ")
  .replace(/<!--.*?-->/g, "")
  .replace(/style="[^"]*"/g, "")
  .replace(/class="[^"]*"/g, "")
  .replace(/id="[^"]*"/g, "");
return this.simpleHash(simplified);
```
-/

/-- The character class `\s` of JavaScript regular expressions. -/
def jsSpace (c : Char) : Bool :=
  c.toNat = 32 ∨ c.toNat = 9 ∨ c.toNat = 10 ∨ c.toNat = 11 ∨ c.toNat = 12 ∨
  c.toNat = 13 ∨ c.toNat = 0xa0 ∨ c.toNat = 0x1680 ∨
  (0x2000 ≤ c.toNat ∧ c.toNat ≤ 0x200a) ∨ c.toNat = 0x2028 ∨
  c.toNat = 0x2029 ∨ c.toNat = 0x202f ∨ c.toNat = 0x205f ∨
  c.toNat = 0x3000 ∨ c.toNat = 0xfeff

/-- Pass `.replace(/\s+/g, " ")`: every maximal whitespace run becomes one space.
The single space is emitted at the last character of the run. -/
def collapseWs : List Char → List Char
  | [] => []
  | c :: rest =>
    if jsSpace c then
      match rest with
      | [] => [' ']
      | d :: _ => if jsSpace d then collapseWs rest else ' ' :: collapseWs rest
    else c :: collapseWs rest

/-- Whether `pat` is a prefix of the second list. -/
def begins : List Char → List Char → Bool
  | [], _ => true
  | _ :: _, [] => false
  | p :: ps, c :: cs => p = c && begins ps cs

/-- Whether `pat` occurs as a contiguous subsequence of the second list. -/
def containsSeq (pat : List Char) : List Char → Bool
  | [] => begins pat []
  | c :: rest => begins pat (c :: rest) || containsSeq pat rest

/-- The four characters opening an HTML comment. -/
def cmtOpen : List Char := ['<', '!', '-', '-']

/-- Remainder of the input after the first `-->`, if any (the non-greedy
`.*?-->` of the comment regex). -/
def afterCommentClose : List Char → Option (List Char)
  | [] => none
  | c :: rest =>
    if begins ['-', '-', '>'] (c :: rest) then some (rest.drop 2)
    else afterCommentClose rest

/-- Pass `.replace(/<!--.*?-->/g, "")` with fuel.  On a match the scan resumes after
the closing `-->`; if a `<!--` is never closed the engine fails at that
position and advances one character.  The pass is applied after whitespace
collapsing, so the input contains no line terminators and `.` matches every
remaining character. -/
def stripCommentsGo : ℕ → List Char → List Char
  | 0, l => l
  | _ + 1, [] => []
  | f + 1, c :: rest =>
    if begins cmtOpen (c :: rest) then
      match afterCommentClose (rest.drop 3) with
      | some r => stripCommentsGo f r
      | none => c :: stripCommentsGo f rest
    else c :: stripCommentsGo f rest

/-- Pass `.replace(/<!--.*?-->/g, "")`. -/
def stripComments (l : List Char) : List Char := stripCommentsGo l.length l

/-- Remainder of the input after the first `"`, if any (the `[^"]*"` part of
the attribute regexes). -/
def afterQuote : List Char → Option (List Char)
  | [] => none
  | c :: rest => if c = '"' then some rest else afterQuote rest

/-- Pass `.replace(/NAME="[^"]*"/g, "")` with fuel, where `P` is the literal part
`NAME="`.  On a match everything through the closing quote is removed; if the
quote is never closed the engine fails at that position and advances one
character. -/
def stripAttrGo (P : List Char) : ℕ → List Char → List Char
  | 0, l => l
  | _ + 1, [] => []
  | f + 1, c :: rest =>
    if begins P (c :: rest) then
      match afterQuote ((c :: rest).drop P.length) with
      | some r => stripAttrGo P f r
      | none => c :: stripAttrGo P f rest
    else c :: stripAttrGo P f rest

/-- Pass `.replace(/NAME="[^"]*"/g, "")`. -/
def stripAttr (P : List Char) (l : List Char) : List Char := stripAttrGo P l.length l

/-- The literal `style="`. -/
def stylePat : List Char := ['s', 't', 'y', 'l', 'e', '=', '"']

/-- The literal `class="`. -/
def classPat : List Char := ['c', 'l', 'a', 's', 's', '=', '"']

/-- The literal `id="`. -/
def idPat : List Char := ['i', 'd', '=', '"']

/-- The `simplified` string of `generateStructuralHash`: whitespace collapsed,
comments stripped, then `style="…"`, `class="…"` and `id="…"` stripped, in
that order. -/
def normalizeForHash (s : List Char) : List Char :=
  stripAttr idPat (stripAttr classPat (stripAttr stylePat (stripComments (collapseWs s))))

/-- Method `HTMLAnalyzer.generateStructuralHash`: the rolling hash of the simplified
markup, rendered in base 36. -/
def generateStructuralHash (s : List Char) : List Char :=
  simpleHash (normalizeForHash s)

/-- Characters allowed in an altered attribute value / comment body in the
stability theorem: ASCII letters, digits and spaces.  They can form none of
the delimiters `"`, `=`, `<`, `>`, `!`, `-` the scanners react to. -/
def safeChar (c : Char) : Bool := c.isAlpha || c.isDigit || c = ' '

/-! ## `extractTagCounts` (`htmlAnalyzer.ts`)

```ts
const tagRegex = /<([a-zA-Z0-9\-]+)([^>]*)>/g;
while ((match = tagRegex.exec(html))) {
  const tag = match[1].toLowerCase();
  tagCounts[tag] = (tagCounts[tag] || 0) + 1;
}
```
-/

/-- The character class `[a-zA-Z0-9\-]` of the tag regex. -/
def isTagNameChar (c : Char) : Bool := c.isAlpha || c.isDigit || c = '-'

/-- Remainder of the input after the first `>`, if any (the `[^>]*>` part of
the tag regex). -/
def afterGt : List Char → Option (List Char)
  | [] => none
  | c :: rest => if c = '>' then some rest else afterGt rest

/-- All matches of the tag regex over the raw text, in order, as the captured
raw (not yet lowercased) tag names.  A match needs `<`, then at least one name
character, then a `>` somewhere after; on failure the engine advances one
character, on success it resumes after the `>`. -/
def tagScanGo : ℕ → List Char → List String
  | 0, _ => []
  | _ + 1, [] => []
  | f + 1, c :: rest =>
    if c = '<' then
      let name := rest.takeWhile isTagNameChar
      if name.isEmpty then tagScanGo f rest
      else
        match afterGt (rest.drop name.length) with
        | some r => String.mk name :: tagScanGo f r
        | none => tagScanGo f rest
    else tagScanGo f rest

/-- The captured tag names of all regex matches. -/
def tagMatches (l : List Char) : List String := tagScanGo l.length l

/-- Function `String.prototype.toLowerCase`, character-wise (ASCII-relevant part). -/
def lowerStr (s : String) : String := String.mk (s.data.map Char.toLower)

/-- Update `tagCounts[tag] = (tagCounts[tag] || 0) + 1`, with JavaScript-object
insertion-order semantics on an association list. -/
def addCount (m : List (String × ℕ)) (key : String) : List (String × ℕ) :=
  if m.any (fun p => p.1 = key) then
    m.map fun p => if p.1 = key then (p.1, p.2 + 1) else p
  else m ++ [(key, 1)]

/-- Method `HTMLAnalyzer.extractTagCounts`. -/
def extractTagCounts (l : List Char) : List (String × ℕ) :=
  (tagMatches l).foldl (fun m t => addCount m (lowerStr t)) []

/-- A `Record<string, number>` read access `m[key] || 0` (also the truthiness
test `m[key] > 0`, since `undefined > 0` is false). -/
def lookupCount (m : List (String × ℕ)) (key : String) : ℕ :=
  match m.find? fun p => p.1 = key with
  | some p => p.2
  | none => 0

/-! ## The feature record and generation parameters -/

/-- Record `HTMLFeatures` of `htmlAnalyzer.ts`, with the three nested records
flattened.  Counts are naturals, `avgNestingLevel` is a real-valued average. -/
structure HTMLFeatures where
  tagCounts : List (String × ℕ)
  classCounts : List (String × ℕ)
  idCounts : List (String × ℕ)
  attributeCounts : List (String × ℕ)
  nestingDepth : ℕ
  semanticTags : List String
  interactiveTags : List String
  mediaTags : List String
  textLength : ℕ
  linkCount : ℕ
  imageCount : ℕ
  formElements : ℕ
  totalElements : ℕ
  uniqueTags : ℕ
  avgNestingLevel : ℚ
  maxNestingLevel : ℕ
  colorPalette : List String
  structuralHash : String
deriving DecidableEq

/-- Record `FractalParams` of `fractalAlgorithms.ts`. -/
structure FractalParams where
  iterations : ℕ
  complexity : ℚ
  scale : ℚ
  colorSeed : ℚ
  algorithm : String
  morphFactor : ℚ
  animationSpeed : ℚ
deriving DecidableEq

/-- The ambient JavaScript/THREE environment threaded explicitly through the
generators: `Math.sqrt/sin/cos/acos/PI`, the hsl-string → rgb conversion
performed by `new THREE.Color("hsl(h, s%, l%)")`, the hex-string → rgb
conversion performed by `new THREE.Color("#RRGGBB")`, the number-to-string
conversion performed by JavaScript string concatenation, and `Math.random`
modelled as the stream of values its successive calls return. -/
structure JsEnv where
  sqrt : ℚ → ℚ
  sin : ℚ → ℚ
  cos : ℚ → ℚ
  acos : ℚ → ℚ
  pi : ℚ
  hslToRgb : ℚ → ℚ → ℚ → ℚ × ℚ × ℚ
  hexToRgb : String → ℚ × ℚ × ℚ
  numToStr : ℚ → List Char
  random : ℕ → ℚ

/-- Geometry emitted by one generator: the flat `vertices` and `colors`
arrays pushed into the `BufferGeometry` (material parameters such as point
size are not part of the geometry and are not modelled here). -/
structure GenOut where
  vertices : List ℚ
  colors : List ℚ
deriving DecidableEq

/-! ## Escape-time generators (`generateMandelbrotSet`, `generateJuliaSet`) -/

/-- Orbit of the quadratic map `x' = x²−y²+a, y' = 2xy+b` from a start
point. -/
def quadOrbit (a b sx sy : ℚ) : ℕ → ℚ × ℚ
  | 0 => (sx, sy)
  | k + 1 =>
    let p := quadOrbit a b sx sy k
    (p.1 * p.1 - p.2 * p.2 + a, 2 * p.1 * p.2 + b)

/-- The loop `while (x*x + y*y <= 4 && iteration < 100) { … iteration++ }`,
returning the final value of `iteration`. -/
def escapeGo (a b : ℚ) : ℕ → ℚ → ℚ → ℕ → ℕ
  | 0, _, _, iter => iter
  | f + 1, x, y, iter =>
    if x * x + y * y ≤ 4 ∧ iter < 100 then
      escapeGo a b f (x * x - y * y + a) (2 * x * y + b) (iter + 1)
    else iter

/-- Escape iteration count for constant `(a,b)` and start `(sx,sy)`. -/
def escapeCount (a b sx sy : ℚ) : ℕ := escapeGo a b 101 sx sy 0

/-- Squared magnitude of an orbit point. -/
def normSq (p : ℚ × ℚ) : ℚ := p.1 * p.1 + p.2 * p.2

/-- Coordinate `x0` of the Mandelbrot grid sample in column `i`:
`((i - iterations/2) * zoom) / 100 + offsetX`. -/
def mandelX0 (features : HTMLFeatures) (params : FractalParams) (i : ℕ) : ℚ :=
  (((i : ℚ) - (params.iterations : ℚ)/2) * (1/2 + features.nestingDepth * (1/10)))
    / 100 + (features.linkCount % 100) * (1/1000)

/-- Coordinate `y0` of the Mandelbrot grid sample in row `j`. -/
def mandelY0 (features : HTMLFeatures) (params : FractalParams) (j : ℕ) : ℚ :=
  (((j : ℚ) - (params.iterations : ℚ)/2) * (1/2 + features.nestingDepth * (1/10)))
    / 100 + (features.imageCount % 100) * (1/1000)

/-- The per-sample body of the `generateMandelbrotSet` double loop: vertex and
colour pushed for grid point `(i, j)`, or nothing if the point never
escapes. -/
def mandelSample (env : JsEnv) (features : HTMLFeatures) (params : FractalParams)
    (i j : ℕ) : List ℚ × List ℚ :=
  let m := escapeCount (mandelX0 features params i) (mandelY0 features params j) 0 0
  if m < 100 then
    let hue := jsMod ((m : ℚ) * 360 / 100 + params.colorSeed) 360
    let sat : ℚ := 80 + ((features.semanticTags.length * 2) % 20 : ℕ)
    let light : ℚ := 50 + (m % 30 : ℕ)
    let c := env.hslToRgb hue sat light
    ([((i : ℚ) - (params.iterations : ℚ)/2) * (1/10),
      ((j : ℚ) - (params.iterations : ℚ)/2) * (1/10),
      (m : ℚ) * (1/2)],
     [c.1, c.2.1, c.2.2])
  else ([], [])

/-- Method `FractalAlgorithms.generateMandelbrotSet`. -/
def generateMandelbrotSet (env : JsEnv) (features : HTMLFeatures)
    (params : FractalParams) : GenOut :=
  { vertices := (List.range params.iterations).flatMap fun i =>
      (List.range params.iterations).flatMap fun j =>
        (mandelSample env features params i j).1
    colors := (List.range params.iterations).flatMap fun i =>
      (List.range params.iterations).flatMap fun j =>
        (mandelSample env features params i j).2 }

/-- The Julia constant's real part `-0.7 + (uniqueTags % 20) * 0.05`. -/
def juliaCr (features : HTMLFeatures) : ℚ :=
  -(7/10) + (features.uniqueTags % 20) * (1/20)

/-- The Julia constant's imaginary part
`0.27015 + (formElements % 10) * 0.02`. -/
def juliaCi (features : HTMLFeatures) : ℚ :=
  27015/100000 + (features.formElements % 10) * (1/50)

/-- The Julia start coordinate `((i - iterations/2) * 3) / iterations`. -/
def juliaStart (params : FractalParams) (i : ℕ) : ℚ :=
  (((i : ℚ) - (params.iterations : ℚ)/2) * 3) / (params.iterations : ℚ)

/-- The per-sample body of the `generateJuliaSet` double loop. -/
def juliaSample (env : JsEnv) (features : HTMLFeatures) (params : FractalParams)
    (i j : ℕ) : List ℚ × List ℚ :=
  let complexity : ℚ := min ((features.totalElements : ℚ)/50) 8
  let m := escapeCount (juliaCr features) (juliaCi features)
    (juliaStart params i) (juliaStart params j)
  if m < 100 then
    let hue := jsMod ((m : ℚ) * 180 / 100 + params.colorSeed
      + (features.colorPalette.length : ℚ) * 20) 360
    let c := env.hslToRgb hue 90 60
    ([((i : ℚ) - (params.iterations : ℚ)/2) * (15/100),
      ((j : ℚ) - (params.iterations : ℚ)/2) * (15/100),
      env.sin ((m : ℚ) * (1/10)) * complexity],
     [c.1, c.2.1, c.2.2])
  else ([], [])

/-- Method `FractalAlgorithms.generateJuliaSet`. -/
def generateJuliaSet (env : JsEnv) (features : HTMLFeatures)
    (params : FractalParams) : GenOut :=
  { vertices := (List.range params.iterations).flatMap fun i =>
      (List.range params.iterations).flatMap fun j =>
        (juliaSample env features params i j).1
    colors := (List.range params.iterations).flatMap fun i =>
      (List.range params.iterations).flatMap fun j =>
        (juliaSample env features params i j).2 }

/-! ## Lorenz attractor (`generateLorenzAttractor`) -/

/-- One forward-Euler step of the Lorenz system with `dt = 0.01`; all three
increments are computed from the previous state. -/
def lorenzStep (sigma rho beta : ℚ) (p : ℚ × ℚ × ℚ) : ℚ × ℚ × ℚ :=
  let dt : ℚ := 1/100
  (p.1 + sigma * (p.2.1 - p.1) * dt,
   p.2.1 + (p.1 * (rho - p.2.2) - p.2.1) * dt,
   p.2.2 + (p.1 * p.2.1 - beta * p.2.2) * dt)

/-- Method `FractalAlgorithms.generateLorenzAttractor`: `iterations * 20` Euler steps
from `(0.1, 0, 0)`, each emitting one scaled point coloured by its distance
from the origin. -/
def generateLorenzAttractor (env : JsEnv) (features : HTMLFeatures)
    (params : FractalParams) : GenOut :=
  let sigma : ℚ := 10 + (features.totalElements % 100) * (1/10)
  let rho : ℚ := 28 + (features.textLength % 1000) * (1/100)
  let beta : ℚ := 8/3 + (features.semanticTags.length % 10) * (1/10)
  let final := (List.range (params.iterations * 20)).foldl
    (fun (acc : (ℚ × ℚ × ℚ) × List ℚ × List ℚ) i =>
      let p := lorenzStep sigma rho beta acc.1
      let dist := env.sqrt (p.1 * p.1 + p.2.1 * p.2.1 + p.2.2 * p.2.2)
      let hue := jsMod (dist * 10 + params.colorSeed + (i : ℚ) * (1/2)) 360
      let c := env.hslToRgb hue 90 60
      (p,
       acc.2.1 ++ [p.1 * (3/10), p.2.1 * (3/10), p.2.2 * (3/10)],
       acc.2.2 ++ [c.1, c.2.1, c.2.2]))
    ((1/10, 0, 0), [], [])
  { vertices := final.2.1, colors := final.2.2 }

/-! ## Fractal tree (`generateFractalTree`, `generateBranch`) -/

/-- Number of `generateBranch` invocations that pass the
`depth <= 0 || depth > 20` guard (each such invocation emits exactly one line
segment) for a given starting depth and branching factor. -/
def segCount : ℕ → ℕ → ℕ
  | 0, _ => 0
  | d + 1, bf => if 20 < d + 1 then 0 else 1 + bf * segCount d (max 2 (bf - 1))

/-- The `for (let i = 0; i < branchingFactor; i++)` loop of `generateBranch`:
`n` children remain, `i` is the current index, `k` the `Math.random` stream
position.  Each child consumes two stream values (angle jitter, tilt) and then
recurses through `step`. -/
def childLoop (env : JsEnv)
    (step : ℚ → ℚ → ℚ → ℚ → ℚ → ℚ → ℕ → List ℚ × List ℚ × ℕ)
    (bf : ℕ) (ex ey ez newLength : ℚ) : ℕ → ℕ → ℕ → List ℚ × List ℚ × ℕ
  | 0, _, k => ([], [], k)
  | n + 1, i, k =>
    let angle := ((i : ℚ) * 2 * env.pi) / (bf : ℚ) + env.random k * (1/2)
    let tilt := (env.random (k + 1) - 1/2) * env.pi * (3/10)
    let nex := ex + env.cos angle * env.cos tilt * newLength
    let ney := ey + newLength * (4/5)
    let nez := ez + env.sin angle * env.cos tilt * newLength
    let r1 := step ex ey ez nex ney nez (k + 2)
    let rest := childLoop env step bf ex ey ez newLength n (i + 1) r1.2.2
    (r1.1 ++ rest.1, r1.2.1 ++ rest.2.1, rest.2.2)

/-- Method `FractalAlgorithms.generateBranch` with an explicit fuel argument (every
recursive call decreases `depth` by exactly 1, and the guard rejects
`depth > 20`, so fuel 21 makes the fuel bound unreachable).  Returns the
vertex and colour lists pushed by this call and the advanced random-stream
position. -/
def generateBranchGo (env : JsEnv) (params : FractalParams) :
    ℕ → ℤ → ℕ → ℚ → ℚ → ℚ → ℚ → ℚ → ℚ → ℕ → List ℚ × List ℚ × ℕ
  | 0, _, _, _, _, _, _, _, _, k => ([], [], k)
  | f + 1, depth, bf, sx, sy, sz, ex, ey, ez, k =>
    if depth ≤ 0 ∨ 20 < depth then ([], [], k)
    else
      let hue := jsMod ((12 - (depth : ℚ)) * 30 + params.colorSeed) 360
      let sat : ℚ := 60 + (depth : ℚ) * 5
      let light : ℚ := 40 + (depth : ℚ) * 3
      let c := env.hslToRgb hue sat light
      let len := env.sqrt ((ex - sx) ^ 2 + (ey - sy) ^ 2 + (ez - sz) ^ 2)
      let newLength := len * (3/5 + env.random k * (1/5))
      let res := childLoop env
        (fun a1 a2 a3 a4 a5 a6 k' =>
          generateBranchGo env params f (depth - 1) (max 2 (bf - 1))
            a1 a2 a3 a4 a5 a6 k')
        bf ex ey ez newLength bf 0 (k + 1)
      (sx :: sy :: sz :: ex :: ey :: ez :: res.1,
       c.1 :: c.2.1 :: c.2.2 :: c.1 :: c.2.1 :: c.2.2 :: res.2.1,
       res.2.2)

/-- Method `FractalAlgorithms.generateFractalTree`: clamp depth and branching factor,
then grow from the trunk `(0,0,0) → (0,8,0)`. -/
def generateFractalTree (env : JsEnv) (features : HTMLFeatures)
    (params : FractalParams) : GenOut :=
  let maxDepth : ℕ := min (features.nestingDepth + 6) 12
  let branchingFactor : ℕ := min (features.uniqueTags + 2) 6
  let r := generateBranchGo env params 21 (maxDepth : ℤ) branchingFactor
    0 0 0 0 8 0 0
  { vertices := r.1, colors := r.2.1 }

/-! ## `EnhancedFractalGenerator.createDefaultSections` and helpers -/

/-- Type `THREE.Vector3`. -/
structure Vec3 where
  x : ℚ
  y : ℚ
  z : ℚ
deriving DecidableEq

/-- Record `FractalSection` of `enhancedGenerator.ts`. -/
structure FractalSection where
  name : String
  algorithm : String
  enabled : Bool
  position : Vec3
  scale : ℚ
deriving DecidableEq

/-- The fixed `sectionTypes` list of `createDefaultSections`. -/
def sectionTypes : List String :=
  ["header", "footer", "body", "section", "nav", "main", "article"]

/-- The `algorithmMap` field of `EnhancedFractalGenerator`. -/
def algorithmMap : List String :=
  ["mandelbrot", "julia", "lorenz", "dragon", "sierpinski", "spirograph", "tree"]

/-- Method `EnhancedFractalGenerator.selectAlgorithmForSection`. -/
def selectAlgorithmForSection (features : HTMLFeatures) (sectionType : String)
    (index : ℕ) : String :=
  let hash := simpleHashAbs (sectionType.data ++ features.structuralHash.data)
  let complexityFactor := features.totalElements
  if sectionType = "header" then
    ["mandelbrot", "julia", "spirograph"].getD ((hash + complexityFactor) % 3) ""
  else if sectionType = "footer" then
    ["lorenz", "dragon"].getD ((hash + complexityFactor) % 2) ""
  else if sectionType = "body" ∨ sectionType = "main" then
    ["sierpinski", "tree", "spirograph"].getD ((hash + complexityFactor) % 3) ""
  else if sectionType = "nav" then "dragon"
  else if sectionType = "section" ∨ sectionType = "article" then
    ["tree", "julia", "mandelbrot", "spirograph"].getD
      ((hash + complexityFactor) % 4) ""
  else algorithmMap.getD (index % algorithmMap.length) ""

/-- Method `EnhancedFractalGenerator.calculateSectionPosition` (in JavaScript the
`totalSections = 0` call divides by zero and yields `NaN` coordinates; the
model returns the `ℚ` convention `x / 0 = 0` there — no theorem below depends
on that case). -/
def calculateSectionPosition (env : JsEnv) (index totalSections : ℕ) : Vec3 :=
  if totalSections = 1 then ⟨0, 0, 0⟩
  else
    let radius : ℚ := 20 + (totalSections : ℚ) * 3
    let angle : ℚ := ((index : ℚ) * 2 * env.pi) / (totalSections : ℚ)
    let height : ℚ := env.sin (angle * 2) * 10
      + ((index : ℚ) - (totalSections : ℚ)/2) * 5
    ⟨env.cos angle * radius, height, env.sin angle * radius⟩

/-- Method `EnhancedFractalGenerator.calculateSectionScale` (features present). -/
def calculateSectionScale (features : HTMLFeatures) (sectionType : String) : ℚ :=
  let c := lookupCount features.tagCounts sectionType
  let count : ℚ := if c = 0 then 1 else (c : ℚ)
  let baseScale : ℚ := 7/10 + min (count / 10) (3/2)
  if sectionType = "body" ∨ sectionType = "main" then baseScale * (3/2)
  else if sectionType = "header" ∨ sectionType = "footer" then baseScale * (6/5)
  else baseScale

/-- Method `EnhancedFractalGenerator.createDefaultSections` (features present): one
section per fixed section type whose tag count is positive — positioned with
the pre-push accumulator length, as `sections.length` is read before the
`push` completes — and the single `default`/`mandelbrot` section if none
qualified. -/
def createDefaultSections (env : JsEnv) (features : HTMLFeatures) :
    List FractalSection :=
  let sections := sectionTypes.enum.foldl
    (fun (acc : List FractalSection) (p : ℕ × String) =>
      if 0 < lookupCount features.tagCounts p.2 then
        acc ++ [{ name := p.2
                  algorithm := selectAlgorithmForSection features p.2 p.1
                  enabled := true
                  position := calculateSectionPosition env p.1 acc.length
                  scale := calculateSectionScale features p.2 }]
      else acc)
    []
  if sections.length = 0 then
    [{ name := "default", algorithm := "mandelbrot", enabled := true
       position := ⟨0, 0, 0⟩, scale := 1 }]
  else sections

/-! ## `FractalViewer` (`enhancedContent.ts`): analysis fallback and the mode
cache -/

/-- The fixed fallback feature set substituted by
`FractalViewer.analyzeCurrentPage` when `analyzer.analyze` throws. -/
def fallbackFeatures : HTMLFeatures where
  tagCounts := [("div", 50), ("span", 30), ("p", 20)]
  classCounts := [("container", 10), ("content", 15)]
  idCounts := [("main", 1), ("header", 1)]
  attributeCounts := [("class", 25), ("id", 5)]
  nestingDepth := 3
  semanticTags := ["div", "span", "p"]
  interactiveTags := ["button", "a"]
  mediaTags := ["img"]
  textLength := 1000
  linkCount := 20
  imageCount := 5
  formElements := 2
  totalElements := 100
  uniqueTags := 10
  avgNestingLevel := 3
  maxNestingLevel := 8
  colorPalette := ["#000000", "#ffffff"]
  structuralHash := "default"

/-- Method `FractalViewer.analyzeCurrentPage`: the analyzer call is wrapped in
`try`/`catch`, and a throw is replaced by the fixed fallback record. -/
def analyzeCurrentPage (analysis : Except String HTMLFeatures) : HTMLFeatures :=
  match analysis with
  | Except.ok f => f
  | Except.error _ => fallbackFeatures

/-- Outcome of a `generateFractal` request in `FractalViewer`: which features
ended up in `currentFeatures`, and whether the request completed without a
hard failure. -/
structure GenRequestOutcome where
  featuresUsed : HTMLFeatures
  completed : Bool
deriving DecidableEq

/-- The feature-handling prefix of `FractalViewer.generateFractal`:
`if (!this.currentFeatures) this.currentFeatures = this.analyzeCurrentPage()`,
after which generation proceeds; an analysis throw never aborts the
request. -/
def generateFractalFeatures (currentFeatures : Option HTMLFeatures)
    (analysis : Except String HTMLFeatures) : GenRequestOutcome :=
  { featuresUsed :=
      match currentFeatures with
      | some f => f
      | none => analyzeCurrentPage analysis
    completed := true }

/-- Events observable during a mode switch: whether a fresh generation ran and
whether a cached result was reused. -/
inductive SwitchEvent where
  | generated
  | reusedCache
deriving DecidableEq

/-- The `FractalViewer` state relevant to mode switching: the
`cachedModes` map (mode id → cached canvas/generator handle), the current mode
and the active generator handle. -/
structure ViewerState where
  cachedModes : List (String × ℕ)
  currentMode : Option String
  currentGenerator : Option ℕ
deriving DecidableEq

/-- Operation `Map.get` on the cached-modes association list. -/
def cacheGet (m : List (String × ℕ)) (key : String) : Option ℕ :=
  match m.find? fun p => p.1 = key with
  | some p => some p.2
  | none => none

/-- Operation `Map.set` on the cached-modes association list. -/
def cacheSet (m : List (String × ℕ)) (key : String) (v : ℕ) :
    List (String × ℕ) :=
  if m.any fun p => p.1 = key then
    m.map fun p => if p.1 = key then (p.1, v) else p
  else m ++ [(key, v)]

/-- Method `FractalViewer.switchToMode(mode)`: on a cache hit the cached entry is
displayed (no generation); on a miss the method logs a warning and returns —
it does not generate and does not touch the cache. -/
def switchToMode (st : ViewerState) (mode : String) :
    ViewerState × List SwitchEvent :=
  match cacheGet st.cachedModes mode with
  | none => (st, [])
  | some h =>
    ({ st with currentMode := some mode, currentGenerator := some h },
     [SwitchEvent.reusedCache])

/-- The caching tail of `FractalViewer.generateFractal`: a fresh generator is
always constructed and run, and the result is inserted into `cachedModes`
only when a `mode` argument was supplied. -/
def generateFractalCache (st : ViewerState) (mode : Option String)
    (freshHandle : ℕ) : ViewerState × List SwitchEvent :=
  match mode with
  | some m =>
    ({ cachedModes := cacheSet st.cachedModes m freshHandle
       currentMode := some m
       currentGenerator := some freshHandle },
     [SwitchEvent.generated])
  | none => (st, [SwitchEvent.generated])

/-- The mode ids of `OptimizedFractalGenerator.modes`. -/
def optimizedModeIds : List String :=
  ["dna-helix", "crystal-growth", "neural-network", "spider-web", "mandala"]

/-- The `OptimizedFractalGenerator` state relevant to `switchMode`: whether
features are present, and the current mesh (as the handle that generated
it). -/
structure OptState where
  hasFeatures : Bool
  currentMesh : Option ℕ
deriving DecidableEq

/-- Method `OptimizedFractalGenerator.switchMode(modeId)`: for a known mode with
features present it always clears the current meshes and generates freshly
(`generateFractalByMode`); no per-mode result cache is consulted or
populated.  `freshHandle` stands for the newly generated object. -/
def optSwitchMode (st : OptState) (modeId : String) (freshHandle : ℕ) :
    OptState × List SwitchEvent :=
  if modeId ∈ optimizedModeIds ∧ st.hasFeatures then
    ({ st with currentMesh := some freshHandle }, [SwitchEvent.generated])
  else (st, [])

/-! ## Adaptive quality (`optimizedGenerator.ts`) -/

/-- The quality-relevant renderer state: the pixel ratio and the sizes of the
points materials among the current meshes. -/
structure QualityState where
  pixelRatio : ℚ
  sizes : List ℚ
deriving DecidableEq

/-- Method `OptimizedFractalGenerator.reduceQuality`. -/
def reduceQuality (st : QualityState) : QualityState where
  pixelRatio :=
    if 1 < st.pixelRatio then max 1 (st.pixelRatio - 1/2) else st.pixelRatio
  sizes := st.sizes.map fun s => max (1/10) (s * (8/10))

/-- The per-frame quality action of `startOptimizedAnimation`: every 30th
frame the fps sample is taken and `reduceQuality` runs when it is below 30;
nothing else in the frame callback touches the pixel ratio or material
sizes. -/
def animStep (st : QualityState) (frameCount : ℕ) (fps : ℤ) : QualityState :=
  if frameCount % 30 = 0 ∧ fps < 30 then reduceQuality st else st

/-- A concrete environment used to instantiate theorems at specific inputs in
the witness theorems below. -/
def trivialEnv : JsEnv where
  sqrt := fun _ => 0
  sin := fun _ => 0
  cos := fun _ => 0
  acos := fun _ => 0
  pi := 0
  hslToRgb := fun _ _ _ => (0, 0, 0)
  hexToRgb := fun _ => (0, 0, 0)
  numToStr := fun _ => []
  random := fun _ => 0

/-! ## Dragon curve (`generateDragonCurve`) -/

/-- Expansion of one sequence character in the dragon-curve rewriting loop:
`"1"` becomes `"1R2"` and every other character becomes `"1L2"`. -/
def dragonExpandChar (c : Char) : List Char :=
  if c = '1' then ['1', 'R', '2'] else ['1', 'L', '2']

/-- The rewritten dragon sequence: starting from `"1"`, the rewriting loop
runs `min(nestingDepth + 8, 16)` times, expanding every character in order. -/
def dragonSeq (features : HTMLFeatures) : List Char :=
  (List.range (min (features.nestingDepth + 8) 16)).foldl
    (fun s _ => s.flatMap dragonExpandChar) ['1']

/-- State of the dragon-curve walk: the current point, the current heading
and the vertex and colour arrays accumulated so far. -/
structure TurtleState where
  x : ℚ
  y : ℚ
  z : ℚ
  direction : ℚ
  verts : List ℚ
  cols : List ℚ

/-- Method `FractalAlgorithms.generateDragonCurve`: walk the rewritten sequence for
`min(sequence.length, iterations * 10)` steps; `1`/`2` draw a segment from
the old point to the new one, `R`/`L` turn by `±π/2`. -/
def generateDragonCurve (env : JsEnv) (features : HTMLFeatures)
    (params : FractalParams) : GenOut :=
  let seq := dragonSeq features
  let scale : ℚ := 1/2 + features.avgNestingLevel * (1/10)
  let n := min seq.length (params.iterations * 10)
  let final := (seq.take n).enum.foldl
    (fun (st : TurtleState) (p : ℕ × Char) =>
      if p.2 = '1' ∨ p.2 = '2' then
        let nx := st.x + env.cos st.direction * scale
        let ny := st.y + env.sin st.direction * scale
        let nz := st.z + env.sin ((p.1 : ℚ) * (1/100)
          + (features.totalElements : ℚ) * (1/1000)) * scale * (1/2)
        let hue := jsMod ((p.1 : ℚ) * 180 / (seq.length : ℚ)
          + params.colorSeed) 360
        let c := env.hslToRgb hue 85 65
        { st with
          x := nx
          y := ny
          z := nz
          verts := st.verts ++ [st.x, st.y, st.z, nx, ny, nz]
          cols := st.cols ++ [c.1, c.2.1, c.2.2, c.1, c.2.1, c.2.2] }
      else if p.2 = 'R' then { st with direction := st.direction + env.pi / 2 }
      else if p.2 = 'L' then { st with direction := st.direction - env.pi / 2 }
      else st)
    ⟨0, 0, 0, 0, [], []⟩
  { vertices := final.verts, colors := final.cols }

/-! ## Sierpinski tetrahedron (`generateSierpinskiTetrahedron`) -/

/-- One tetrahedron mesh added to the group by `recursiveSierpinski`: its
position (the centre of its four corner vertices) and its colour. -/
structure MeshInstance where
  position : Vec3
  color : ℚ × ℚ × ℚ
deriving DecidableEq

/-- Midpoint of two `THREE.Vector3` points, as computed by
`.clone().add(other).divideScalar(2)`. -/
def midPoint (a b : Vec3) : Vec3 :=
  ⟨(a.x + b.x) / 2, (a.y + b.y) / 2, (a.z + b.z) / 2⟩

/-- The leaf mesh emitted by `recursiveSierpinski` when the guard
`depth <= 0 || level > 15` fires: centred at the average of the four corner
vertices, coloured `hsl((level*60 + colorSeed) % 360, 80%, 60%)`. -/
def sierpLeaf (env : JsEnv) (params : FractalParams) (level : ℕ)
    (v0 v1 v2 v3 : Vec3) : MeshInstance :=
  { position := ⟨(v0.x + v1.x + v2.x + v3.x) / 4,
                 (v0.y + v1.y + v2.y + v3.y) / 4,
                 (v0.z + v1.z + v2.z + v3.z) / 4⟩
    color := env.hslToRgb (jsMod ((level : ℚ) * 60 + params.colorSeed) 360)
      80 60 }

/-- Method `FractalAlgorithms.recursiveSierpinski`: the list of tetrahedron meshes
added to the group, in the order the four recursive calls add them. -/
def recursiveSierpinski (env : JsEnv) (params : FractalParams) :
    ℕ → ℕ → Vec3 → Vec3 → Vec3 → Vec3 → List MeshInstance
  | 0, level, v0, v1, v2, v3 => [sierpLeaf env params level v0 v1 v2 v3]
  | d + 1, level, v0, v1, v2, v3 =>
    if 15 < level then [sierpLeaf env params level v0 v1 v2 v3]
    else
      let m0 := midPoint v0 v1
      let m1 := midPoint v0 v2
      let m2 := midPoint v0 v3
      let m3 := midPoint v1 v2
      let m4 := midPoint v1 v3
      let m5 := midPoint v2 v3
      recursiveSierpinski env params d (level + 1) v0 m0 m1 m2 ++
      recursiveSierpinski env params d (level + 1) v1 m0 m3 m4 ++
      recursiveSierpinski env params d (level + 1) v2 m1 m3 m5 ++
      recursiveSierpinski env params d (level + 1) v3 m2 m4 m5

/-- Method `FractalAlgorithms.generateSierpinskiTetrahedron`: recursion depth
`min(nestingDepth + 3, 8)` from the four corners of a tetrahedron of size
`5 + uniqueTags * 0.2`. -/
def generateSierpinskiTetrahedron (env : JsEnv) (features : HTMLFeatures)
    (params : FractalParams) : List MeshInstance :=
  let depth := min (features.nestingDepth + 3) 8
  let b : ℚ := 5 + (features.uniqueTags : ℚ) * (1/5)
  recursiveSierpinski env params depth 0
    ⟨0, b, 0⟩ ⟨-b, -b, b⟩ ⟨b, -b, b⟩ ⟨0, -b, -b⟩

/-! ## Spirograph (`generateSpirograph`) -/

/-- Method `FractalAlgorithms.generateSpirograph`: `min(semanticTags.length + 2, 8)`
layers of `iterations * 5` points each (`bigR`/`smallR` stand for the
source's `R`/`r`). -/
def generateSpirograph (env : JsEnv) (features : HTMLFeatures)
    (params : FractalParams) : GenOut :=
  let bigR : ℚ := 5 + (features.uniqueTags : ℚ) * (1/2)
  let smallR : ℚ := 2 + (features.linkCount : ℚ) * (1/100)
  let d : ℚ := 3 + (features.imageCount : ℚ) * (1/50)
  let layers := min (features.semanticTags.length + 2) 8
  { vertices := (List.range layers).flatMap fun layer =>
      (List.range (params.iterations * 5)).flatMap fun i =>
        let layerR := bigR + (layer : ℚ) * 2
        let layerr := smallR + (layer : ℚ) * (1/2)
        let layerd := d + (layer : ℚ) * (3/10)
        let zOffset : ℚ := (layer : ℚ) * 2
        let t : ℚ := (i : ℚ) * (1/10)
        let x := (layerR - layerr) * env.cos t
          + layerd * env.cos (((layerR - layerr) / layerr) * t)
        let y := (layerR - layerr) * env.sin t
          - layerd * env.sin (((layerR - layerr) / layerr) * t)
        let z := zOffset + env.sin (t * (1/5)) * 2
        [x * (3/10), y * (3/10), z * (3/10)]
    colors := (List.range layers).flatMap fun layer =>
      (List.range (params.iterations * 5)).flatMap fun i =>
        let t : ℚ := (i : ℚ) * (1/10)
        let hue := jsMod (t * 30 + (layer : ℚ) * 45 + params.colorSeed) 360
        let sat : ℚ := 70 + (layer : ℚ) * 5
        let light : ℚ := 50 + env.sin (t * (1/10)) * 20
        let c := env.hslToRgb hue sat light
        [c.1, c.2.1, c.2.2] }

/-! ## Particle cloud (`DynamicFractalAlgorithms.generateParticleCloud`)

This generator is *not* one of the recursive branching (tree) variants, yet
it consumes the unseeded `Math.random` stream — three draws per particle. -/

/-- The fixed colour schemes of `DynamicFractalAlgorithms.colorSchemes`. -/
def colorSchemeStructural : List String :=
  ["#FF6B6B", "#4ECDC4", "#45B7D1", "#96CEB4", "#FFEAA7"]

/-- Scheme `semantic` of `DynamicFractalAlgorithms.colorSchemes`. -/
def colorSchemeSemantic : List String :=
  ["#FD79A8", "#A29BFE", "#74B9FF", "#55EFC4", "#FDCB6E"]

/-- Scheme `interactive` of `DynamicFractalAlgorithms.colorSchemes`. -/
def colorSchemeInteractive : List String :=
  ["#E17055", "#00B894", "#6C5CE7", "#FDCB6E", "#00CEC9"]

/-- Scheme `media` of `DynamicFractalAlgorithms.colorSchemes`. -/
def colorSchemeMedia : List String :=
  ["#FAB1A0", "#FF7675", "#FD79A8", "#E84393", "#BE2EDD"]

/-- Scheme `text` of `DynamicFractalAlgorithms.colorSchemes`. -/
def colorSchemeText : List String :=
  ["#81ECEC", "#74B9FF", "#A29BFE", "#DFE6E9", "#B2BEC3"]

/-- Scheme `navigation` of `DynamicFractalAlgorithms.colorSchemes`. -/
def colorSchemeNavigation : List String :=
  ["#00D2D3", "#54A0FF", "#5F27CD", "#341F97", "#EE5A24"]

/-- Method `DynamicFractalAlgorithms.getColorSchemeForTag`: the cascade of
`includes` membership tests over the fixed tag lists. -/
def getColorSchemeForTag (tag : String) : List String :=
  if tag ∈ ["h1", "h2", "h3", "h4", "h5", "h6", "p", "span", "em", "strong"]
    then colorSchemeText
  else if tag ∈ ["header", "nav", "footer", "aside"] then colorSchemeNavigation
  else if tag ∈ ["button", "input", "select", "textarea", "form", "label"]
    then colorSchemeInteractive
  else if tag ∈ ["img", "video", "audio", "canvas", "svg", "picture"]
    then colorSchemeMedia
  else if tag ∈ ["section", "article", "main", "div"] then colorSchemeStructural
  else colorSchemeSemantic

/-- Method `DynamicFractalAlgorithms.getColorForTag`: the scheme entry indexed by
the rolling hash of `tag + seed` (JavaScript string concatenation, so the
numeric seed is stringified), converted from its hex form to rgb.
`DynamicFractalAlgorithms.hashCode` is the same loop as `simpleHash` followed by
`Math.abs`, i.e. `simpleHashAbs`; the second `Math.abs` applied at the call
site is idempotent. -/
def getColorForTag (env : JsEnv) (tag : String) (seed : ℚ) : ℚ × ℚ × ℚ :=
  let scheme := getColorSchemeForTag tag
  let index := simpleHashAbs (tag.data ++ env.numToStr seed) % scheme.length
  env.hexToRgb (scheme.getD index "")

/-- The key array `Object.keys(features.tagCounts)` in insertion order. -/
def particleTagArray (features : HTMLFeatures) : List String :=
  features.tagCounts.map Prod.fst

/-- The three position components pushed for particle `i` of
`generateParticleCloud`.  The loop makes three `Math.random()` draws per
particle, in the order theta, phi, r, so particle `i` consumes stream
positions `3i`, `3i+1`, `3i+2`. -/
def particlePos (env : JsEnv) (features : HTMLFeatures) (i : ℕ) : List ℚ :=
  let tagArray := particleTagArray features
  let tag := tagArray.getD (i % tagArray.length) ""
  let tagInfluence :=
    (lookupCount features.tagCounts tag : ℚ) / (features.totalElements : ℚ)
  let theta := env.random (3 * i) * env.pi * 2
  let phi := env.acos (env.random (3 * i + 1) * 2 - 1)
  let r := 10 + env.random (3 * i + 2) * 20 * tagInfluence
  [r * env.sin phi * env.cos theta,
   r * env.sin phi * env.sin theta,
   r * env.cos phi]

/-- The three colour components pushed for particle `i` of
`generateParticleCloud`. -/
def particleColor (env : JsEnv) (features : HTMLFeatures)
    (params : FractalParams) (i : ℕ) : List ℚ :=
  let tagArray := particleTagArray features
  let tag := tagArray.getD (i % tagArray.length) ""
  let c := getColorForTag env tag (params.colorSeed + (i : ℚ))
  [c.1, c.2.1, c.2.2]

/-- The size pushed for particle `i` of `generateParticleCloud`. -/
def particleSize (features : HTMLFeatures) (i : ℕ) : ℚ :=
  let tagArray := particleTagArray features
  let tag := tagArray.getD (i % tagArray.length) ""
  1/10 + ((lookupCount features.tagCounts tag : ℚ)
    / (features.totalElements : ℚ)) * 2

/-- Geometry emitted by `generateParticleCloud`: the flat `position`,
`color` and `size` attribute arrays. -/
structure ParticleCloudOut where
  positions : List ℚ
  colors : List ℚ
  sizes : List ℚ
deriving DecidableEq

/-- Method `DynamicFractalAlgorithms.generateParticleCloud` (its parameter record
`DynamicFractalParams` has the same fields as `FractalParams`):
`min(totalElements * 10, iterations * 50)` particles placed by spherical
coordinates drawn from the `Math.random` stream. -/
def generateParticleCloud (env : JsEnv) (features : HTMLFeatures)
    (params : FractalParams) : ParticleCloudOut :=
  let particleCount := min (features.totalElements * 10) (params.iterations * 50)
  { positions := (List.range particleCount).flatMap (particlePos env features)
    colors :=
      (List.range particleCount).flatMap (particleColor env features params)
    sizes := (List.range particleCount).map (particleSize features) }

/-- A concrete feature record for instantiating `generateParticleCloud`: one
`div` element. -/
def cloudFeatures : HTMLFeatures where
  tagCounts := [("div", 1)]
  classCounts := []
  idCounts := []
  attributeCounts := []
  nestingDepth := 0
  semanticTags := []
  interactiveTags := []
  mediaTags := []
  textLength := 0
  linkCount := 0
  imageCount := 0
  formElements := 0
  totalElements := 1
  uniqueTags := 1
  avgNestingLevel := 0
  maxNestingLevel := 0
  colorPalette := []
  structuralHash := ""

/-- A concrete parameter record for instantiating `generateParticleCloud`. -/
def cloudParams : FractalParams where
  iterations := 1
  complexity := 0
  scale := 1
  colorSeed := 0
  algorithm := "particleCloud"
  morphFactor := 0
  animationSpeed := 1

/-- A concrete environment for instantiating `generateParticleCloud`, with
the trigonometric functions interpreted as the identity. -/
def cloudEnv : JsEnv where
  sqrt := fun q => q
  sin := fun q => q
  cos := fun q => q
  acos := fun q => q
  pi := 1
  hslToRgb := fun _ _ _ => (0, 0, 0)
  hexToRgb := fun _ => (0, 0, 0)
  numToStr := fun _ => []
  random := fun _ => 0

/-! ## Basic facts about the scanners -/

theorem begins_iff {pat l : List Char} : begins pat l = true ↔ ∃ s, l = pat ++ s := by
  induction pat generalizing l with
  | nil => simp [begins]
  | cons p ps ih =>
    cases l with
    | nil => simp [begins]
    | cons c cs =>
      simp only [begins, Bool.and_eq_true, decide_eq_true_eq, ih, List.cons_append,
        List.cons.injEq]
      constructor
      · rintro ⟨rfl, s, rfl⟩; exact ⟨s, rfl, rfl⟩
      · rintro ⟨s, rfl, rfl⟩; exact ⟨rfl, s, rfl⟩

theorem begins_append_of_le {pat a : List Char} (b : List Char)
    (hlen : pat.length ≤ a.length) (h : begins pat (a ++ b) = true) :
    begins pat a = true := by
  induction pat generalizing a with
  | nil => simp [begins]
  | cons p ps ih =>
    cases a with
    | nil => simp at hlen
    | cons c cs =>
      simp only [List.cons_append, begins, Bool.and_eq_true] at h ⊢
      exact ⟨h.1, ih (Nat.le_of_succ_le_succ hlen) h.2⟩

theorem begins_straddle {pat a : List Char} (b : List Char)
    (hlen : a.length < pat.length) (h : begins pat (a ++ b) = true) :
    a = pat.take a.length ∧ begins (pat.drop a.length) b = true := by
  induction pat generalizing a with
  | nil => simp at hlen
  | cons p ps ih =>
    cases a with
    | nil => simpa using h
    | cons c cs =>
      simp only [List.cons_append, begins, Bool.and_eq_true, decide_eq_true_eq] at h
      obtain ⟨ih1, ih2⟩ := ih (Nat.lt_of_succ_lt_succ hlen) h.2
      refine ⟨?_, ?_⟩
      · simp [List.take, ← h.1, ← ih1]
      · simpa using ih2

theorem containsSeq_cons {pat : List Char} (c : Char) (l : List Char) :
    containsSeq pat (c :: l) = (begins pat (c :: l) || containsSeq pat l) := rfl

theorem mem_of_containsSeq {pat A : List Char} (h : containsSeq pat A = true) :
    ∀ c ∈ pat, c ∈ A := by
  induction A with
  | nil =>
    cases pat with
    | nil => simp
    | cons p ps => simp [containsSeq, begins] at h
  | cons a A ih =>
    rw [containsSeq_cons, Bool.or_eq_true] at h
    rcases h with h | h
    · obtain ⟨s, hs⟩ := begins_iff.mp h
      intro c hc
      rw [hs]
      exact List.mem_append_left _ hc
    · exact fun c hc => List.mem_cons_of_mem _ (ih h c hc)

theorem containsSeq_eq_false_of_not_mem {pat A : List Char} {c : Char}
    (hc : c ∈ pat) (hA : c ∉ A) : containsSeq pat A = false := by
  cases h : containsSeq pat A
  · rfl
  · exact absurd (mem_of_containsSeq h c hc) hA

/-- No occurrence of `pat` can start inside `p` when `pat` does not occur in
`p` alone and no proper tail of `pat` starts `B`. -/
theorem no_occ_in_ctx {pat p B : List Char}
    (h1 : containsSeq pat p = false)
    (h2 : ∀ k, 0 < k → k < pat.length → begins (pat.drop k) B = false) :
    ∀ i, i < p.length → begins pat ((p ++ B).drop i) = false := by
  induction p with
  | nil => intro i hi; simp at hi
  | cons c p ih =>
    intro i hi
    rw [containsSeq_cons, Bool.or_eq_false_iff] at h1
    cases i with
    | zero =>
      simp only [List.drop_zero]
      by_contra hcon
      rw [Bool.not_eq_false] at hcon
      rcases Nat.lt_or_ge (c :: p).length pat.length with hlen | hlen
      · obtain ⟨-, hb⟩ := begins_straddle (a := c :: p) B hlen hcon
        have := h2 (c :: p).length (by simp) hlen
        rw [this] at hb; exact Bool.false_ne_true hb
      · have := begins_append_of_le (a := c :: p) B hlen hcon
        rw [h1.1] at this; exact Bool.false_ne_true this
    | succ j =>
      have := ih h1.2 j (Nat.lt_of_succ_lt_succ hi)
      simpa using this

/-- No occurrence of `pat` can start inside `p` when `p` does not contain the
first character of `pat` at all. -/
theorem no_occ_head {x : Char} {q p B : List Char} (hx : x ∉ p) :
    ∀ i, i < p.length → begins (x :: q) ((p ++ B).drop i) = false := by
  induction p with
  | nil => intro i hi; simp at hi
  | cons c p ih =>
    intro i hi
    cases i with
    | zero =>
      simp only [List.drop_zero, List.cons_append, begins]
      have : x ≠ c := fun h => hx (h ▸ List.mem_cons_self c p)
      simp [this]
    | succ j =>
      have := ih (fun h => hx (List.mem_cons_of_mem _ h)) j (Nat.lt_of_succ_lt_succ hi)
      simpa using this

theorem afterQuote_len {l r : List Char} (h : afterQuote l = some r) :
    r.length < l.length := by
  induction l with
  | nil => simp [afterQuote] at h
  | cons c rest ih =>
    rw [afterQuote] at h
    split at h
    · obtain rfl := Option.some.inj h
      simp
    · exact Nat.lt_succ_of_lt (ih h)

theorem afterQuote_append {m : List Char} (w : List Char) (hm : '"' ∉ m) :
    afterQuote (m ++ '"' :: w) = some w := by
  induction m with
  | nil => simp [afterQuote]
  | cons c m ih =>
    have hc : c ≠ '"' := fun h => hm (h ▸ List.mem_cons_self c m)
    rw [List.cons_append, afterQuote, if_neg hc]
    exact ih fun h => hm (List.mem_cons_of_mem _ h)

theorem afterCommentClose_len {l r : List Char} (h : afterCommentClose l = some r) :
    r.length ≤ l.length := by
  induction l with
  | nil => simp [afterCommentClose] at h
  | cons c rest ih =>
    rw [afterCommentClose] at h
    by_cases hc : begins ['-', '-', '>'] (c :: rest) = true
    · rw [if_pos hc] at h
      obtain ⟨rfl⟩ := Option.some.injEq _ _ ▸ h
      have : (rest.drop 2).length ≤ rest.length := by
        rw [List.length_drop]; omega
      simpa using Nat.le_succ_of_le this
    · rw [if_neg hc] at h
      exact Nat.le_succ_of_le (ih h)

theorem afterCommentClose_append {m : List Char} (w : List Char) (hm : '-' ∉ m) :
    afterCommentClose (m ++ '-' :: '-' :: '>' :: w) = some w := by
  induction m with
  | nil =>
    rw [List.nil_append, afterCommentClose]
    simp [begins]
  | cons c m ih =>
    have hc : c ≠ '-' := fun h => hm (h ▸ List.mem_cons_self c m)
    rw [List.cons_append, afterCommentClose, if_neg ?_]
    · exact ih fun h => hm (List.mem_cons_of_mem _ h)
    · simp only [begins, Bool.and_eq_true, decide_eq_true_eq, not_and]
      exact fun h => (hc h.symm).elim

/-! ## Fuel irrelevance and unfolding equations for the strip passes -/

theorem stripCommentsGo_fuel :
    ∀ f₁ f₂ (l : List Char), l.length ≤ f₁ → l.length ≤ f₂ →
      stripCommentsGo f₁ l = stripCommentsGo f₂ l := by
  intro f₁
  induction f₁ with
  | zero =>
    intro f₂ l h1 _
    have : l = [] := List.eq_nil_of_length_eq_zero (Nat.le_zero.mp h1)
    subst this
    cases f₂ <;> rfl
  | succ f ih =>
    intro f₂ l h1 h2
    cases l with
    | nil => cases f₂ <;> rfl
    | cons c rest =>
      cases f₂ with
      | zero => simp at h2
      | succ g =>
        rw [stripCommentsGo, stripCommentsGo]
        split
        · rename_i hb
          cases hac : afterCommentClose (rest.drop 3) with
          | none =>
            simp only [hac]
            have hr : rest.length ≤ f := Nat.le_of_succ_le_succ h1
            have hr2 : rest.length ≤ g := Nat.le_of_succ_le_succ h2
            rw [ih g rest hr hr2]
          | some r =>
            simp only [hac]
            have hrl : r.length ≤ rest.length := by
              have := afterCommentClose_len hac
              have hd : (rest.drop 3).length ≤ rest.length := by
                rw [List.length_drop]; omega
              omega
            exact ih g r (le_trans hrl (Nat.le_of_succ_le_succ h1))
              (le_trans hrl (Nat.le_of_succ_le_succ h2))
        · rw [ih g rest (Nat.le_of_succ_le_succ h1) (Nat.le_of_succ_le_succ h2)]

theorem stripComments_cons_neg {c : Char} {l : List Char}
    (h : begins cmtOpen (c :: l) = false) :
    stripComments (c :: l) = c :: stripComments l := by
  show stripCommentsGo (c :: l).length (c :: l) = c :: stripCommentsGo l.length l
  rw [List.length_cons, stripCommentsGo, h]
  simp

theorem stripComments_cons_some {c : Char} {l r : List Char}
    (h : begins cmtOpen (c :: l) = true)
    (h2 : afterCommentClose (l.drop 3) = some r) :
    stripComments (c :: l) = stripComments r := by
  show stripCommentsGo (c :: l).length (c :: l) = stripCommentsGo r.length r
  rw [List.length_cons, stripCommentsGo, h]
  simp only [if_true, h2]
  have hrl : r.length ≤ l.length := by
    have := afterCommentClose_len h2
    have hd : (l.drop 3).length ≤ l.length := by rw [List.length_drop]; omega
    omega
  exact stripCommentsGo_fuel _ _ r hrl le_rfl

theorem stripComments_append {p t : List Char}
    (hp : ∀ i, i < p.length → begins cmtOpen ((p ++ t).drop i) = false) :
    stripComments (p ++ t) = p ++ stripComments t := by
  induction p with
  | nil => simp
  | cons c p ih =>
    have h0 : begins cmtOpen (c :: (p ++ t)) = false := by
      have := hp 0 (by simp)
      simpa using this
    rw [List.cons_append, stripComments_cons_neg h0, ih]
    · rfl
    · intro i hi
      have := hp (i + 1) (by simpa using Nat.succ_lt_succ hi)
      simpa using this

theorem stripAttrGo_fuel (P : List Char) :
    ∀ f₁ f₂ (l : List Char), l.length ≤ f₁ → l.length ≤ f₂ →
      stripAttrGo P f₁ l = stripAttrGo P f₂ l := by
  intro f₁
  induction f₁ with
  | zero =>
    intro f₂ l h1 _
    have : l = [] := List.eq_nil_of_length_eq_zero (Nat.le_zero.mp h1)
    subst this
    cases f₂ <;> rfl
  | succ f ih =>
    intro f₂ l h1 h2
    cases l with
    | nil => cases f₂ <;> rfl
    | cons c rest =>
      cases f₂ with
      | zero => simp at h2
      | succ g =>
        rw [stripAttrGo, stripAttrGo]
        split
        · cases hac : afterQuote ((c :: rest).drop P.length) with
          | none =>
            simp only [hac]
            rw [ih g rest (Nat.le_of_succ_le_succ h1) (Nat.le_of_succ_le_succ h2)]
          | some r =>
            simp only [hac]
            have hrl : r.length ≤ rest.length := by
              have := afterQuote_len hac
              have hd : ((c :: rest).drop P.length).length ≤ (c :: rest).length := by
                rw [List.length_drop]; omega
              simp only [List.length_cons] at hd
              omega
            exact ih g r (le_trans hrl (Nat.le_of_succ_le_succ h1))
              (le_trans hrl (Nat.le_of_succ_le_succ h2))
        · rw [ih g rest (Nat.le_of_succ_le_succ h1) (Nat.le_of_succ_le_succ h2)]

theorem stripAttr_cons_neg {P : List Char} {c : Char} {l : List Char}
    (h : begins P (c :: l) = false) :
    stripAttr P (c :: l) = c :: stripAttr P l := by
  show stripAttrGo P (c :: l).length (c :: l) = c :: stripAttrGo P l.length l
  rw [List.length_cons, stripAttrGo, h]
  simp

theorem stripAttr_cons_some {P : List Char} {c : Char} {l r : List Char}
    (h : begins P (c :: l) = true)
    (h2 : afterQuote ((c :: l).drop P.length) = some r) :
    stripAttr P (c :: l) = stripAttr P r := by
  show stripAttrGo P (c :: l).length (c :: l) = stripAttrGo P r.length r
  rw [List.length_cons, stripAttrGo, h]
  simp only [if_true, h2]
  have hrl : r.length ≤ l.length := by
    have := afterQuote_len h2
    have hd : ((c :: l).drop P.length).length ≤ (c :: l).length := by
      rw [List.length_drop]; omega
    simp only [List.length_cons] at hd this
    omega
  exact stripAttrGo_fuel P _ _ r hrl le_rfl

theorem stripAttr_append {P p t : List Char}
    (hp : ∀ i, i < p.length → begins P ((p ++ t).drop i) = false) :
    stripAttr P (p ++ t) = p ++ stripAttr P t := by
  induction p with
  | nil => simp
  | cons c p ih =>
    have h0 : begins P (c :: (p ++ t)) = false := by
      have := hp 0 (by simp)
      simpa using this
    rw [List.cons_append, stripAttr_cons_neg h0, ih]
    · rfl
    · intro i hi
      have := hp (i + 1) (by simpa using Nat.succ_lt_succ hi)
      simpa using this

/-! ## Facts about whitespace collapsing -/

theorem collapseWs_nil : collapseWs [] = [] := rfl

theorem collapseWs_cons_ns {c : Char} {l : List Char} (h : jsSpace c = false) :
    collapseWs (c :: l) = c :: collapseWs l := by
  rw [collapseWs.eq_def]
  simp [h]

theorem collapseWs_single {c : Char} (hc : jsSpace c = true) :
    collapseWs [c] = [' '] := by
  rw [collapseWs.eq_def]
  simp [hc]

theorem collapseWs_cons₂ {c d : Char} {l : List Char} (hc : jsSpace c = true) :
    collapseWs (c :: d :: l) =
      if jsSpace d then collapseWs (d :: l) else ' ' :: collapseWs (d :: l) := by
  rw [collapseWs.eq_def]
  simp [hc]

theorem collapseWs_append_ns {a : List Char} (t : List Char)
    (ha : ∀ c ∈ a, jsSpace c = false) :
    collapseWs (a ++ t) = a ++ collapseWs t := by
  induction a with
  | nil => simp
  | cons c a ih =>
    rw [List.cons_append, collapseWs_cons_ns (ha c (List.mem_cons_self c a)),
      ih fun x hx => ha x (List.mem_cons_of_mem _ hx)]
    rfl

theorem collapseWs_append_split {a : List Char} {d : Char} (t : List Char)
    (hd : jsSpace d = false) :
    collapseWs (a ++ d :: t) = collapseWs a ++ collapseWs (d :: t) := by
  induction a with
  | nil => simp [collapseWs_nil]
  | cons c a ih =>
    by_cases hc : jsSpace c = true
    · cases a with
      | nil =>
        show collapseWs (c :: d :: t) = collapseWs [c] ++ collapseWs (d :: t)
        rw [collapseWs_cons₂ hc, collapseWs_single hc, hd]
        simp
      | cons e a' =>
        show collapseWs (c :: e :: (a' ++ d :: t)) =
          collapseWs (c :: e :: a') ++ collapseWs (d :: t)
        rw [collapseWs_cons₂ hc, collapseWs_cons₂ hc]
        by_cases he : jsSpace e = true
        · simp only [he, if_true]
          exact ih
        · rw [Bool.not_eq_true] at he
          simp only [he, Bool.false_eq_true, if_false, List.cons_append]
          exact congrArg (' ' :: ·) ih
    · rw [Bool.not_eq_true] at hc
      rw [List.cons_append, collapseWs_cons_ns hc, collapseWs_cons_ns hc,
        List.cons_append]
      exact congrArg (c :: ·) ih

theorem mem_collapseWs {c : Char} {l : List Char} (h : c ∈ collapseWs l) :
    c ∈ l ∨ c = ' ' := by
  induction l with
  | nil => simp [collapseWs] at h
  | cons x rest ih =>
    by_cases hx : jsSpace x = true
    · cases rest with
      | nil =>
        rw [collapseWs_single hx] at h
        simp only [List.mem_singleton] at h
        exact Or.inr h
      | cons d r =>
        rw [collapseWs_cons₂ hx] at h
        by_cases hd : jsSpace d = true
        · simp only [hd, if_true] at h
          rcases ih h with h' | h'
          · exact Or.inl (List.mem_cons_of_mem _ h')
          · exact Or.inr h'
        · rw [Bool.not_eq_true] at hd
          simp only [hd, Bool.false_eq_true, if_false, List.mem_cons] at h
          rcases h with h' | h'
          · exact Or.inr h'
          · rcases ih h' with h'' | h''
            · exact Or.inl (List.mem_cons_of_mem _ h'')
            · exact Or.inr h''
    · rw [Bool.not_eq_true] at hx
      rw [collapseWs_cons_ns hx, List.mem_cons] at h
      rcases h with h' | h'
      · exact Or.inl (h' ▸ List.mem_cons_self x rest)
      · rcases ih h' with h'' | h''
        · exact Or.inl (List.mem_cons_of_mem _ h'')
        · exact Or.inr h''

/-! ## Slot lemmas: the normalisation passes around one altered attribute
value or comment body -/

theorem not_mem_of_safe {c₀ : Char} {v : List Char} (h₀ : safeChar c₀ = false)
    (hv : ∀ c ∈ v, safeChar c = true) : c₀ ∉ v := by
  intro hmem
  rw [hv c₀ hmem] at h₀
  exact Bool.true_eq_false.mp h₀

theorem not_mem_collapse_of_safe {c₀ : Char} {v : List Char}
    (h₀ : safeChar c₀ = false) (hv : ∀ c ∈ v, safeChar c = true) :
    c₀ ∉ collapseWs v := by
  intro hmem
  rcases mem_collapseWs hmem with h | h
  · exact not_mem_of_safe h₀ hv h
  · rw [h] at h₀
    exact absurd h₀ (by decide)

theorem drops_not_begins {pat : List Char} {x : Char}
    (hx : ∀ k, k < pat.length → 0 < k → (pat.drop k).head? ≠ some x)
    (B : List Char) :
    ∀ k, 0 < k → k < pat.length → begins (pat.drop k) (x :: B) = false := by
  intro k h1 h2
  cases hd : pat.drop k with
  | nil =>
    exfalso
    have : (pat.drop k).length = 0 := by rw [hd]; rfl
    rw [List.length_drop] at this
    omega
  | cons d rest =>
    have hdx : d ≠ x := by
      have := hx k h2 h1
      rw [hd] at this
      simpa using this
    simp [begins, hdx]

/-- Pattern `NAME="` cannot match anywhere in a quote-free, `=`-free value followed by
its closing quote. -/
theorem begins_attr_false {N m r : List Char}
    (hN : '=' ∉ N ∧ '"' ∉ N) (hm : '=' ∉ m ∧ '"' ∉ m) :
    begins (N ++ ['=', '"']) (m ++ '"' :: r) = false := by
  induction N generalizing m with
  | nil =>
    cases m with
    | nil => simp [begins]
    | cons c m' =>
      have : ('=' : Char) ≠ c := fun h => hm.1 (h ▸ List.mem_cons_self c m')
      simp [begins, this]
  | cons n N' ih =>
    cases m with
    | nil =>
      have : n ≠ '"' := fun h => hN.2 (h ▸ List.mem_cons_self n N')
      simp [begins, this]
    | cons c m' =>
      have hrec := ih ⟨fun h => hN.1 (List.mem_cons_of_mem _ h),
        fun h => hN.2 (List.mem_cons_of_mem _ h)⟩
        (m := m') ⟨fun h => hm.1 (List.mem_cons_of_mem _ h),
        fun h => hm.2 (List.mem_cons_of_mem _ h)⟩
      simp [begins, hrec]

/-- Skipping a whole quoted attribute during a pass for a different attribute
name: no `style="` can start inside `class="…"`. -/
theorem no_style_in_class {cv B : List Char} (he : '=' ∉ cv) (hq : '"' ∉ cv) :
    ∀ j, j < 8 + cv.length →
      begins stylePat ((classPat ++ (cv ++ '"' :: B)).drop j) = false := by
  intro j hj
  rcases Nat.lt_or_ge j 7 with h7 | h7
  · interval_cases j <;> simp [begins, stylePat, classPat]
  · have hdrop : (classPat ++ (cv ++ '"' :: B)).drop j =
        cv.drop (j - 7) ++ '"' :: B := by
      rw [List.drop_append_eq_append_drop, List.drop_append_eq_append_drop]
      have h1 : classPat.length = 7 := rfl
      have h2 : j - classPat.length - cv.length = 0 := by rw [h1]; omega
      rw [h2]
      have h3 : classPat.drop j = [] := by
        apply List.drop_eq_nil_of_le
        rw [h1]; omega
      simp [h3, h1]
    rw [hdrop, show stylePat = ['s','t','y','l','e'] ++ ['=', '\x22'] from rfl]
    exact begins_attr_false (by decide)
      ⟨fun h => he (List.drop_subset _ _ h), fun h => hq (List.drop_subset _ _ h)⟩

/-- No `style="` can start inside `id="…"`. -/
theorem no_style_in_id {cv B : List Char} (he : '=' ∉ cv) (hq : '"' ∉ cv) :
    ∀ j, j < 5 + cv.length →
      begins stylePat ((idPat ++ (cv ++ '"' :: B)).drop j) = false := by
  intro j hj
  rcases Nat.lt_or_ge j 4 with h4 | h4
  · interval_cases j <;> simp [begins, stylePat, idPat]
  · have hdrop : (idPat ++ (cv ++ '"' :: B)).drop j =
        cv.drop (j - 4) ++ '"' :: B := by
      rw [List.drop_append_eq_append_drop, List.drop_append_eq_append_drop]
      have h1 : idPat.length = 4 := rfl
      have h2 : j - idPat.length - cv.length = 0 := by rw [h1]; omega
      rw [h2]
      have h3 : idPat.drop j = [] := by
        apply List.drop_eq_nil_of_le
        rw [h1]; omega
      simp [h3, h1]
    rw [hdrop, show stylePat = ['s','t','y','l','e'] ++ ['=', '\x22'] from rfl]
    exact begins_attr_false (by decide)
      ⟨fun h => he (List.drop_subset _ _ h), fun h => hq (List.drop_subset _ _ h)⟩

/-- No `class="` can start inside `id="…"`. -/
theorem no_class_in_id {cv B : List Char} (he : '=' ∉ cv) (hq : '"' ∉ cv) :
    ∀ j, j < 5 + cv.length →
      begins classPat ((idPat ++ (cv ++ '"' :: B)).drop j) = false := by
  intro j hj
  rcases Nat.lt_or_ge j 4 with h4 | h4
  · interval_cases j <;> simp [begins, classPat, idPat]
  · have hdrop : (idPat ++ (cv ++ '"' :: B)).drop j =
        cv.drop (j - 4) ++ '"' :: B := by
      rw [List.drop_append_eq_append_drop, List.drop_append_eq_append_drop]
      have h1 : idPat.length = 4 := rfl
      have h2 : j - idPat.length - cv.length = 0 := by rw [h1]; omega
      rw [h2]
      have h3 : idPat.drop j = [] := by
        apply List.drop_eq_nil_of_le
        rw [h1]; omega
      simp [h3, h1]
    rw [hdrop, show classPat = ['c','l','a','s','s'] ++ ['=', '\x22'] from rfl]
    exact begins_attr_false (by decide)
      ⟨fun h => he (List.drop_subset _ _ h), fun h => hq (List.drop_subset _ _ h)⟩

/-- Removing a whole quoted attribute when the pass for its own name reaches
it. -/
theorem stripAttr_removes {P : List Char} (hne : P ≠ []) {v : List Char}
    (B : List Char) (hv : '"' ∉ v) :
    stripAttr P (P ++ (v ++ '"' :: B)) = stripAttr P B := by
  obtain ⟨c, P', rfl⟩ := List.exists_cons_of_ne_nil hne
  have hshape : (c :: P') ++ (v ++ '"' :: B) = c :: (P' ++ (v ++ '"' :: B)) := rfl
  rw [hshape]
  have hbeg : begins (c :: P') (c :: (P' ++ (v ++ '"' :: B))) = true :=
    begins_iff.mpr ⟨v ++ '"' :: B, rfl⟩
  have hdrop : (c :: (P' ++ (v ++ '"' :: B))).drop (c :: P').length
      = v ++ '"' :: B := by
    simp [List.drop_append_eq_append_drop]
  have hq : afterQuote ((c :: (P' ++ (v ++ '"' :: B))).drop (c :: P').length)
      = some B := by
    rw [hdrop]
    exact afterQuote_append B hv
  exact stripAttr_cons_some hbeg hq

/-- Removing a whole comment when the comment pass reaches it. -/
theorem stripComments_removes {v : List Char} (B : List Char) (hv : '-' ∉ v) :
    stripComments (cmtOpen ++ (v ++ '-' :: '-' :: '>' :: B)) = stripComments B := by
  have hshape : cmtOpen ++ (v ++ '-' :: '-' :: '>' :: B)
      = '<' :: ('!' :: '-' :: '-' :: (v ++ '-' :: '-' :: '>' :: B)) := rfl
  rw [hshape]
  have hbeg : begins cmtOpen
      ('<' :: ('!' :: '-' :: '-' :: (v ++ '-' :: '-' :: '>' :: B))) = true :=
    begins_iff.mpr ⟨v ++ '-' :: '-' :: '>' :: B, rfl⟩
  have hcl : afterCommentClose
      (('!' :: '-' :: '-' :: (v ++ '-' :: '-' :: '>' :: B)).drop 3) = some B := by
    show afterCommentClose (v ++ '-' :: '-' :: '>' :: B) = some B
    exact afterCommentClose_append B hv
  exact stripComments_cons_some hbeg hcl

/-- Skipping the (quote-free) context before the slot during an attribute
pass. -/
theorem stripAttr_skip_cu {P : List Char} (hquote : '"' ∈ P) {x : Char}
    {T u : List Char} (hq : '"' ∉ u)
    (hx : ∀ k, k < P.length → 0 < k → (P.drop k).head? ≠ some x) :
    stripAttr P (u ++ x :: T) = u ++ stripAttr P (x :: T) := by
  apply stripAttr_append
  apply no_occ_in_ctx (containsSeq_eq_false_of_not_mem hquote hq)
  exact drops_not_begins hx T

/-- Skipping the context before the slot during the comment pass. -/
theorem stripComments_skip_cu {x : Char} {T u : List Char}
    (hcmt : containsSeq cmtOpen u = false)
    (hx : ∀ k, k < cmtOpen.length → 0 < k → (cmtOpen.drop k).head? ≠ some x) :
    stripComments (u ++ x :: T) = u ++ stripComments (x :: T) := by
  apply stripComments_append
  apply no_occ_in_ctx hcmt
  exact drops_not_begins hx T

/-- Skipping a list that contains no `<` during the comment pass. -/
theorem stripComments_skip_noLt {p t : List Char} (hp : '<' ∉ p) :
    stripComments (p ++ t) = p ++ stripComments t := by
  apply stripComments_append
  intro i hi
  exact no_occ_head (x := '<') (q := ['!', '-', '-']) hp i hi

/-- The class-value slot: with a quote-free, comment-opener-free prefix and a
safe value, normalisation reduces to something independent of the value. -/
theorem normalize_class_slot (u v w : List Char)
    (hv : ∀ c ∈ v, safeChar c = true)
    (hq : '"' ∉ collapseWs u)
    (hcmt : containsSeq cmtOpen (collapseWs u) = false) :
    normalizeForHash (u ++ (classPat ++ (v ++ '"' :: w))) =
      stripAttr idPat (collapseWs u ++
        stripAttr classPat (stripAttr stylePat (stripComments (collapseWs w)))) := by
  have hqv : '"' ∉ collapseWs v := not_mem_collapse_of_safe (by decide) hv
  have hev : '=' ∉ collapseWs v := not_mem_collapse_of_safe (by decide) hv
  have hltv : '<' ∉ collapseWs v := not_mem_collapse_of_safe (by decide) hv
  -- step 1: whitespace collapse distributes over the slot decomposition
  have e1 : collapseWs (u ++ (classPat ++ (v ++ '"' :: w)))
      = collapseWs u ++ (classPat ++ (collapseWs v ++ '"' :: collapseWs w)) := by
    have s1 := collapseWs_append_split
      (a := u) (d := 'c') (['l', 'a', 's', 's', '=', '"'] ++ (v ++ '"' :: w))
      (by decide)
    have s2 := collapseWs_append_ns (a := classPat) (v ++ '"' :: w) (by decide)
    have s3 := collapseWs_append_split (a := v) (d := '"') w (by decide)
    have s4 := collapseWs_cons_ns (c := '"') (l := w) (by decide)
    simp only [classPat, List.cons_append, List.nil_append] at s1 s2 s3 s4 ⊢
    rw [s1, s2, s3, s4]
  -- step 2: the comment pass passes the slot through
  have e2 : stripComments
        (collapseWs u ++ (classPat ++ (collapseWs v ++ '"' :: collapseWs w)))
      = collapseWs u ++
        (classPat ++ (collapseWs v ++ '"' :: stripComments (collapseWs w))) := by
    have s1 := stripComments_skip_cu (x := 'c')
      (T := ['l', 'a', 's', 's', '=', '"'] ++ (collapseWs v ++ '"' :: collapseWs w))
      (u := collapseWs u) hcmt (by decide)
    have hnolt : '<' ∉ classPat ++ (collapseWs v ++ ['"']) := by
      intro h
      rcases List.mem_append.mp h with h | h
      · exact absurd h (by decide)
      · rcases List.mem_append.mp h with h | h
        · exact hltv h
        · exact absurd h (by decide)
    have s2 := stripComments_skip_noLt
      (p := classPat ++ (collapseWs v ++ ['"'])) (t := collapseWs w) hnolt
    simp only [classPat, List.cons_append, List.nil_append, List.append_assoc,
      List.singleton_append] at s1 s2 ⊢
    rw [s1, s2]
  -- step 3: the style pass passes the slot through
  have e3 : stripAttr stylePat
        (collapseWs u ++
          (classPat ++ (collapseWs v ++ '"' :: stripComments (collapseWs w))))
      = collapseWs u ++
        (classPat ++
          (collapseWs v ++ '"' :: stripAttr stylePat (stripComments (collapseWs w)))) := by
    have s1 := stripAttr_skip_cu (P := stylePat) (by decide) (x := 'c')
      (T := ['l', 'a', 's', 's', '=', '"'] ++
        (collapseWs v ++ '"' :: stripComments (collapseWs w)))
      (u := collapseWs u) hq (by decide)
    have s2 : stripAttr stylePat
        ((classPat ++ (collapseWs v ++ ['"'])) ++ stripComments (collapseWs w))
        = (classPat ++ (collapseWs v ++ ['"'])) ++
          stripAttr stylePat (stripComments (collapseWs w)) := by
      apply stripAttr_append
      intro i hi
      have hlen : (classPat ++ (collapseWs v ++ ['"'])).length
          = 8 + (collapseWs v).length := by
        simp [classPat]
        omega
      have hi' : i < 8 + (collapseWs v).length := by rw [← hlen]; exact hi
      have := no_style_in_class (B := stripAttr stylePat (stripComments (collapseWs w)))
        hev hqv i hi'
      have goal := no_style_in_class (B := stripComments (collapseWs w)) hev hqv i hi'
      simpa [List.append_assoc, List.singleton_append] using goal
    simp only [classPat, List.cons_append, List.nil_append, List.append_assoc,
      List.singleton_append] at s1 s2 ⊢
    rw [s1, s2]
  -- step 4: the class pass removes the slot
  have e4 : stripAttr classPat
        (collapseWs u ++
          (classPat ++
            (collapseWs v ++ '"' :: stripAttr stylePat (stripComments (collapseWs w)))))
      = collapseWs u ++
        stripAttr classPat (stripAttr stylePat (stripComments (collapseWs w))) := by
    have s1 := stripAttr_skip_cu (P := classPat) (by decide) (x := 'c')
      (T := ['l', 'a', 's', 's', '=', '"'] ++
        (collapseWs v ++ '"' :: stripAttr stylePat (stripComments (collapseWs w))))
      (u := collapseWs u) hq (by decide)
    have s2 := stripAttr_removes (P := classPat) (by decide)
      (v := collapseWs v)
      (stripAttr stylePat (stripComments (collapseWs w))) hqv
    simp only [classPat, List.cons_append, List.nil_append, List.append_assoc,
      List.singleton_append] at s1 s2 ⊢
    rw [s1, s2]
  show stripAttr idPat (stripAttr classPat (stripAttr stylePat (stripComments
    (collapseWs (u ++ (classPat ++ (v ++ '"' :: w))))))) = _
  rw [e1, e2, e3, e4]

/-- The style-value slot. -/
theorem normalize_style_slot (u v w : List Char)
    (hv : ∀ c ∈ v, safeChar c = true)
    (hq : '"' ∉ collapseWs u)
    (hcmt : containsSeq cmtOpen (collapseWs u) = false) :
    normalizeForHash (u ++ (stylePat ++ (v ++ '"' :: w))) =
      stripAttr idPat (stripAttr classPat (collapseWs u ++
        stripAttr stylePat (stripComments (collapseWs w)))) := by
  have hqv : '"' ∉ collapseWs v := not_mem_collapse_of_safe (by decide) hv
  have hltv : '<' ∉ collapseWs v := not_mem_collapse_of_safe (by decide) hv
  have e1 : collapseWs (u ++ (stylePat ++ (v ++ '"' :: w)))
      = collapseWs u ++ (stylePat ++ (collapseWs v ++ '"' :: collapseWs w)) := by
    have s1 := collapseWs_append_split
      (a := u) (d := 's') (['t', 'y', 'l', 'e', '=', '"'] ++ (v ++ '"' :: w))
      (by decide)
    have s2 := collapseWs_append_ns (a := stylePat) (v ++ '"' :: w) (by decide)
    have s3 := collapseWs_append_split (a := v) (d := '"') w (by decide)
    have s4 := collapseWs_cons_ns (c := '"') (l := w) (by decide)
    simp only [stylePat, List.cons_append, List.nil_append] at s1 s2 s3 s4 ⊢
    rw [s1, s2, s3, s4]
  have e2 : stripComments
        (collapseWs u ++ (stylePat ++ (collapseWs v ++ '"' :: collapseWs w)))
      = collapseWs u ++
        (stylePat ++ (collapseWs v ++ '"' :: stripComments (collapseWs w))) := by
    have s1 := stripComments_skip_cu (x := 's')
      (T := ['t', 'y', 'l', 'e', '=', '"'] ++ (collapseWs v ++ '"' :: collapseWs w))
      (u := collapseWs u) hcmt (by decide)
    have hnolt : '<' ∉ stylePat ++ (collapseWs v ++ ['"']) := by
      intro h
      rcases List.mem_append.mp h with h | h
      · exact absurd h (by decide)
      · rcases List.mem_append.mp h with h | h
        · exact hltv h
        · exact absurd h (by decide)
    have s2 := stripComments_skip_noLt
      (p := stylePat ++ (collapseWs v ++ ['"'])) (t := collapseWs w) hnolt
    simp only [stylePat, List.cons_append, List.nil_append, List.append_assoc,
      List.singleton_append] at s1 s2 ⊢
    rw [s1, s2]
  have e3 : stripAttr stylePat
        (collapseWs u ++
          (stylePat ++ (collapseWs v ++ '"' :: stripComments (collapseWs w))))
      = collapseWs u ++ stripAttr stylePat (stripComments (collapseWs w)) := by
    have s1 := stripAttr_skip_cu (P := stylePat) (by decide) (x := 's')
      (T := ['t', 'y', 'l', 'e', '=', '"'] ++
        (collapseWs v ++ '"' :: stripComments (collapseWs w)))
      (u := collapseWs u) hq (by decide)
    have s2 := stripAttr_removes (P := stylePat) (by decide)
      (v := collapseWs v) (stripComments (collapseWs w)) hqv
    simp only [stylePat, List.cons_append, List.nil_append, List.append_assoc,
      List.singleton_append] at s1 s2 ⊢
    rw [s1, s2]
  show stripAttr idPat (stripAttr classPat (stripAttr stylePat (stripComments
    (collapseWs (u ++ (stylePat ++ (v ++ '"' :: w))))))) = _
  rw [e1, e2, e3]

/-- The id-value slot. -/
theorem normalize_id_slot (u v w : List Char)
    (hv : ∀ c ∈ v, safeChar c = true)
    (hq : '"' ∉ collapseWs u)
    (hcmt : containsSeq cmtOpen (collapseWs u) = false) :
    normalizeForHash (u ++ (idPat ++ (v ++ '"' :: w))) =
      collapseWs u ++
        stripAttr idPat (stripAttr classPat (stripAttr stylePat
          (stripComments (collapseWs w)))) := by
  have hqv : '"' ∉ collapseWs v := not_mem_collapse_of_safe (by decide) hv
  have hev : '=' ∉ collapseWs v := not_mem_collapse_of_safe (by decide) hv
  have hltv : '<' ∉ collapseWs v := not_mem_collapse_of_safe (by decide) hv
  have e1 : collapseWs (u ++ (idPat ++ (v ++ '"' :: w)))
      = collapseWs u ++ (idPat ++ (collapseWs v ++ '"' :: collapseWs w)) := by
    have s1 := collapseWs_append_split
      (a := u) (d := 'i') (['d', '=', '"'] ++ (v ++ '"' :: w)) (by decide)
    have s2 := collapseWs_append_ns (a := idPat) (v ++ '"' :: w) (by decide)
    have s3 := collapseWs_append_split (a := v) (d := '"') w (by decide)
    have s4 := collapseWs_cons_ns (c := '"') (l := w) (by decide)
    simp only [idPat, List.cons_append, List.nil_append] at s1 s2 s3 s4 ⊢
    rw [s1, s2, s3, s4]
  have e2 : stripComments
        (collapseWs u ++ (idPat ++ (collapseWs v ++ '"' :: collapseWs w)))
      = collapseWs u ++
        (idPat ++ (collapseWs v ++ '"' :: stripComments (collapseWs w))) := by
    have s1 := stripComments_skip_cu (x := 'i')
      (T := ['d', '=', '"'] ++ (collapseWs v ++ '"' :: collapseWs w))
      (u := collapseWs u) hcmt (by decide)
    have hnolt : '<' ∉ idPat ++ (collapseWs v ++ ['"']) := by
      intro h
      rcases List.mem_append.mp h with h | h
      · exact absurd h (by decide)
      · rcases List.mem_append.mp h with h | h
        · exact hltv h
        · exact absurd h (by decide)
    have s2 := stripComments_skip_noLt
      (p := idPat ++ (collapseWs v ++ ['"'])) (t := collapseWs w) hnolt
    simp only [idPat, List.cons_append, List.nil_append, List.append_assoc,
      List.singleton_append] at s1 s2 ⊢
    rw [s1, s2]
  have e3 : stripAttr stylePat
        (collapseWs u ++
          (idPat ++ (collapseWs v ++ '"' :: stripComments (collapseWs w))))
      = collapseWs u ++
        (idPat ++ (collapseWs v ++ '"' ::
          stripAttr stylePat (stripComments (collapseWs w)))) := by
    have s1 := stripAttr_skip_cu (P := stylePat) (by decide) (x := 'i')
      (T := ['d', '=', '"'] ++
        (collapseWs v ++ '"' :: stripComments (collapseWs w)))
      (u := collapseWs u) hq (by decide)
    have s2 : stripAttr stylePat
        ((idPat ++ (collapseWs v ++ ['"'])) ++ stripComments (collapseWs w))
        = (idPat ++ (collapseWs v ++ ['"'])) ++
          stripAttr stylePat (stripComments (collapseWs w)) := by
      apply stripAttr_append
      intro i hi
      have hlen : (idPat ++ (collapseWs v ++ ['"'])).length
          = 5 + (collapseWs v).length := by
        simp [idPat]
        omega
      have hi' : i < 5 + (collapseWs v).length := by rw [← hlen]; exact hi
      have goal := no_style_in_id (B := stripComments (collapseWs w)) hev hqv i hi'
      simpa [List.append_assoc, List.singleton_append] using goal
    simp only [idPat, List.cons_append, List.nil_append, List.append_assoc,
      List.singleton_append] at s1 s2 ⊢
    rw [s1, s2]
  have e4 : stripAttr classPat
        (collapseWs u ++
          (idPat ++ (collapseWs v ++ '"' ::
            stripAttr stylePat (stripComments (collapseWs w)))))
      = collapseWs u ++
        (idPat ++ (collapseWs v ++ '"' ::
          stripAttr classPat (stripAttr stylePat (stripComments (collapseWs w))))) := by
    have s1 := stripAttr_skip_cu (P := classPat) (by decide) (x := 'i')
      (T := ['d', '=', '"'] ++
        (collapseWs v ++ '"' :: stripAttr stylePat (stripComments (collapseWs w))))
      (u := collapseWs u) hq (by decide)
    have s2 : stripAttr classPat
        ((idPat ++ (collapseWs v ++ ['"'])) ++
          stripAttr stylePat (stripComments (collapseWs w)))
        = (idPat ++ (collapseWs v ++ ['"'])) ++
          stripAttr classPat (stripAttr stylePat (stripComments (collapseWs w))) := by
      apply stripAttr_append
      intro i hi
      have hlen : (idPat ++ (collapseWs v ++ ['"'])).length
          = 5 + (collapseWs v).length := by
        simp [idPat]
        omega
      have hi' : i < 5 + (collapseWs v).length := by rw [← hlen]; exact hi
      have goal := no_class_in_id
        (B := stripAttr stylePat (stripComments (collapseWs w))) hev hqv i hi'
      simpa [List.append_assoc, List.singleton_append] using goal
    simp only [idPat, List.cons_append, List.nil_append, List.append_assoc,
      List.singleton_append] at s1 s2 ⊢
    rw [s1, s2]
  have e5 : stripAttr idPat
        (collapseWs u ++
          (idPat ++ (collapseWs v ++ '"' ::
            stripAttr classPat (stripAttr stylePat (stripComments (collapseWs w))))))
      = collapseWs u ++
        stripAttr idPat (stripAttr classPat (stripAttr stylePat
          (stripComments (collapseWs w)))) := by
    have s1 := stripAttr_skip_cu (P := idPat) (by decide) (x := 'i')
      (T := ['d', '=', '"'] ++
        (collapseWs v ++ '"' ::
          stripAttr classPat (stripAttr stylePat (stripComments (collapseWs w)))))
      (u := collapseWs u) hq (by decide)
    have s2 := stripAttr_removes (P := idPat) (by decide)
      (v := collapseWs v)
      (stripAttr classPat (stripAttr stylePat (stripComments (collapseWs w)))) hqv
    simp only [idPat, List.cons_append, List.nil_append, List.append_assoc,
      List.singleton_append] at s1 s2 ⊢
    rw [s1, s2]
  show stripAttr idPat (stripAttr classPat (stripAttr stylePat (stripComments
    (collapseWs (u ++ (idPat ++ (v ++ '"' :: w))))))) = _
  rw [e1, e2, e3, e4, e5]

/-- The comment-body slot. -/
theorem normalize_cmt_slot (u v w : List Char)
    (hv : ∀ c ∈ v, safeChar c = true)
    (hcmt : containsSeq cmtOpen (collapseWs u) = false) :
    normalizeForHash (u ++ (cmtOpen ++ (v ++ '-' :: '-' :: '>' :: w))) =
      stripAttr idPat (stripAttr classPat (stripAttr stylePat
        (collapseWs u ++ stripComments (collapseWs w)))) := by
  have hdv : '-' ∉ collapseWs v := not_mem_collapse_of_safe (by decide) hv
  have e1 : collapseWs (u ++ (cmtOpen ++ (v ++ '-' :: '-' :: '>' :: w)))
      = collapseWs u ++
        (cmtOpen ++ (collapseWs v ++ '-' :: '-' :: '>' :: collapseWs w)) := by
    have s1 := collapseWs_append_split
      (a := u) (d := '<') (['!', '-', '-'] ++ (v ++ '-' :: '-' :: '>' :: w))
      (by decide)
    have s2 := collapseWs_append_ns (a := cmtOpen) (v ++ '-' :: '-' :: '>' :: w)
      (by decide)
    have s3 := collapseWs_append_split (a := v) (d := '-') ('-' :: '>' :: w)
      (by decide)
    have s4 := collapseWs_cons_ns (c := '-') (l := '-' :: '>' :: w) (by decide)
    have s5 := collapseWs_cons_ns (c := '-') (l := '>' :: w) (by decide)
    have s6 := collapseWs_cons_ns (c := '>') (l := w) (by decide)
    simp only [cmtOpen, List.cons_append, List.nil_append] at s1 s2 s3 s4 s5 s6 ⊢
    rw [s1, s2, s3, s4, s5, s6]
  have e2 : stripComments
        (collapseWs u ++
          (cmtOpen ++ (collapseWs v ++ '-' :: '-' :: '>' :: collapseWs w)))
      = collapseWs u ++ stripComments (collapseWs w) := by
    have s1 := stripComments_skip_cu (x := '<')
      (T := ['!', '-', '-'] ++ (collapseWs v ++ '-' :: '-' :: '>' :: collapseWs w))
      (u := collapseWs u) hcmt (by decide)
    have s2 := stripComments_removes (v := collapseWs v) (collapseWs w) hdv
    simp only [cmtOpen, List.cons_append, List.nil_append, List.append_assoc,
      List.singleton_append] at s1 s2 ⊢
    rw [s1, s2]
  show stripAttr idPat (stripAttr classPat (stripAttr stylePat (stripComments
    (collapseWs (u ++ (cmtOpen ++ (v ++ '-' :: '-' :: '>' :: w))))))) = _
  rw [e1, e2]

/-! ## Claim C1 — fingerprint stability -/

set_option maxRecDepth 200000 in
/-- C1 counterexample: the claim "for all markup strings M, altering
class/id/style attribute values or comments leaves
`generateStructuralHash` unchanged" is false as stated.  The attribute
regexes only strip double-quoted values, so changing a single-quoted class
value from `a` to `b` changes the fingerprint. -/
theorem c1_counterexample :
    generateStructuralHash "<div class=a></div>".toList ≠
      generateStructuralHash "<div class=b></div>".toList := by decide

/-- C1 (amended): the fingerprint is stable under replacing the value of one
double-quoted `class`/`style`/`id` attribute, or the body of one comment, by
any other string of letters, digits and spaces, provided the whitespace-
collapsed context before the slot contains no double quote and no `<!--`.
(Multiple alterations follow by chaining; single-quoted values are not
stripped, as `c1_counterexample` shows.) -/
theorem c1_fingerprint_stability (u v vAlt w : List Char)
    (hv : ∀ c ∈ v, safeChar c = true) (hv2 : ∀ c ∈ vAlt, safeChar c = true)
    (hq : '"' ∉ collapseWs u)
    (hcmt : containsSeq cmtOpen (collapseWs u) = false) :
    generateStructuralHash (u ++ (classPat ++ (v ++ '"' :: w))) =
      generateStructuralHash (u ++ (classPat ++ (vAlt ++ '"' :: w))) ∧
    generateStructuralHash (u ++ (stylePat ++ (v ++ '"' :: w))) =
      generateStructuralHash (u ++ (stylePat ++ (vAlt ++ '"' :: w))) ∧
    generateStructuralHash (u ++ (idPat ++ (v ++ '"' :: w))) =
      generateStructuralHash (u ++ (idPat ++ (vAlt ++ '"' :: w))) ∧
    generateStructuralHash (u ++ (cmtOpen ++ (v ++ '-' :: '-' :: '>' :: w))) =
      generateStructuralHash (u ++ (cmtOpen ++ (vAlt ++ '-' :: '-' :: '>' :: w))) := by
  refine ⟨?_, ?_, ?_, ?_⟩
  · exact congrArg simpleHash
      ((normalize_class_slot u v w hv hq hcmt).trans
        (normalize_class_slot u vAlt w hv2 hq hcmt).symm)
  · exact congrArg simpleHash
      ((normalize_style_slot u v w hv hq hcmt).trans
        (normalize_style_slot u vAlt w hv2 hq hcmt).symm)
  · exact congrArg simpleHash
      ((normalize_id_slot u v w hv hq hcmt).trans
        (normalize_id_slot u vAlt w hv2 hq hcmt).symm)
  · exact congrArg simpleHash
      ((normalize_cmt_slot u v w hv hcmt).trans
        (normalize_cmt_slot u vAlt w hv2 hcmt).symm)

set_option maxRecDepth 200000 in
/-- C1 witness: the amended theorem applied at a concrete document. -/
theorem c1_witness :
    (∀ c ∈ ['a'], safeChar c = true) ∧ '"' ∉ collapseWs "<div ".toList ∧
    containsSeq cmtOpen (collapseWs "<div ".toList) = false ∧
    generateStructuralHash
        ("<div ".toList ++ (classPat ++ (['a'] ++ '"' :: ">x</div>".toList))) =
      generateStructuralHash
        ("<div ".toList ++ (classPat ++ (['b'] ++ '"' :: ">x</div>".toList))) :=
  ⟨by decide, by decide, by decide,
   (c1_fingerprint_stability "<div ".toList ['a'] ['b'] ">x</div>".toList
     (by decide) (by decide) (by decide) (by decide)).1⟩

/-! ## Claim C5 — the fingerprint pipeline -/

theorem hashStep_eq_spec (h : ℤ) (c : Char) :
    hashStep h c = toInt32 (31 * h + (c.toNat : ℤ)) := by
  unfold hashStep toInt32
  omega

/-- C5: the structural fingerprint is exactly: normalise (collapse whitespace
runs to one space, strip comments, then strip `style="…"`, `class="…"`,
`id="…"` in that order), fold the characters with
`h' = toInt32 (31·h + code)` — the `(h << 5) - h + code` step wrapped to
signed 32 bits on every step — starting from 0, and render the final value in
base 36. -/
theorem c5_hash_pipeline (s : List Char) :
    generateStructuralHash s =
      intToBase36 ((normalizeForHash s).foldl
        (fun h c => toInt32 (31 * h + (c.toNat : ℤ))) 0) ∧
    normalizeForHash s =
      stripAttr idPat (stripAttr classPat (stripAttr stylePat
        (stripComments (collapseWs s)))) := by
  refine ⟨?_, rfl⟩
  show intToBase36 ((normalizeForHash s).foldl hashStep 0) = _
  have hstep : hashStep = fun h c => toInt32 (31 * h + (c.toNat : ℤ)) :=
    funext fun h => funext fun c => hashStep_eq_spec h c
  rw [hstep]

/-! ## Claim C2 — determinism of the non-jittered generators -/

/-- Every particle's position triple is a three-element list. -/
theorem particlePos_len (env : JsEnv) (features : HTMLFeatures) (i : ℕ) :
    (particlePos env features i).length = 3 := rfl

/-- When at least one particle is generated, entry 2 of the flat position
array is the third component of particle 0's position triple. -/
theorem particleCloud_two (env : JsEnv) (features : HTMLFeatures)
    (params : FractalParams)
    (h : 0 < min (features.totalElements * 10) (params.iterations * 50)) :
    (generateParticleCloud env features params).positions[2]? =
      (particlePos env features 0)[2]? := by
  obtain ⟨m, hm⟩ :
      ∃ m, min (features.totalElements * 10) (params.iterations * 50) = m + 1 :=
    ⟨min (features.totalElements * 10) (params.iterations * 50) - 1, by omega⟩
  simp only [generateParticleCloud]
  rw [hm, List.range_succ_eq_map, List.flatMap_cons, List.getElem?_append]
  simp [particlePos_len]

/-- The meshes emitted by `recursiveSierpinski` do not depend on the
`Math.random` stream. -/
theorem recursiveSierpinski_random (env : JsEnv) (r r2 : ℕ → ℚ)
    (params : FractalParams) : ∀ d level v0 v1 v2 v3,
    recursiveSierpinski { env with random := r } params d level v0 v1 v2 v3 =
      recursiveSierpinski { env with random := r2 } params d level v0 v1 v2 v3
    := by
  intro d
  induction d with
  | zero => intro level v0 v1 v2 v3; rfl
  | succ d ih =>
    intro level v0 v1 v2 v3
    simp only [recursiveSierpinski]
    split
    · rfl
    · rw [ih, ih, ih, ih]

/-- C2 (amended): with identical inputs, every `FractalAlgorithms` generator
other than the fractal tree — Mandelbrot, Julia, Lorenz, dragon curve,
Sierpinski tetrahedron and spirograph — produces identical output
irrespective of the `Math.random` stream: none of them consults it.  The
tree generator does consult it, but so does the particle cloud, which is not
a recursive branching variant (see the counterexample), so the claim's
blanket exception for the tree variants alone does not cover all the
randomness. -/
theorem c2_generation_deterministic (env : JsEnv) (r r2 : ℕ → ℚ)
    (features : HTMLFeatures) (params : FractalParams) :
    generateMandelbrotSet { env with random := r } features params =
      generateMandelbrotSet { env with random := r2 } features params ∧
    generateJuliaSet { env with random := r } features params =
      generateJuliaSet { env with random := r2 } features params ∧
    generateLorenzAttractor { env with random := r } features params =
      generateLorenzAttractor { env with random := r2 } features params ∧
    generateDragonCurve { env with random := r } features params =
      generateDragonCurve { env with random := r2 } features params ∧
    generateSierpinskiTetrahedron { env with random := r } features params =
      generateSierpinskiTetrahedron { env with random := r2 } features params ∧
    generateSpirograph { env with random := r } features params =
      generateSpirograph { env with random := r2 } features params :=
  ⟨rfl, rfl, rfl, rfl,
    recursiveSierpinski_random env r r2 params _ _ _ _ _ _, rfl⟩

/-- C2 counterexample: `generateParticleCloud` is *not* a recursive branching
variant, yet its output depends on the unseeded `Math.random` stream — under
two different streams (the stream a first call would see versus the stream a
second, later call would see) the position arrays differ already at the
first particle's z-coordinate. -/
theorem c2_counterexample :
    (generateParticleCloud { cloudEnv with random := fun _ => 0 }
        cloudFeatures cloudParams).positions ≠
      (generateParticleCloud { cloudEnv with random := fun _ => 1/2 }
        cloudFeatures cloudParams).positions := by
  intro heq
  have hA : (particlePos { cloudEnv with random := fun _ => 0 }
      cloudFeatures 0)[2]? = some ((-10 : ℚ)) := by
    norm_num [particlePos, particleTagArray, lookupCount, cloudEnv,
      cloudFeatures, List.find?]
  have hB : (particlePos { cloudEnv with random := fun _ => 1/2 }
      cloudFeatures 0)[2]? = some ((0 : ℚ)) := by
    norm_num [particlePos, particleTagArray, lookupCount, cloudEnv,
      cloudFeatures, List.find?]
  have h2 : (generateParticleCloud { cloudEnv with random := fun _ => 0 }
        cloudFeatures cloudParams).positions[2]? =
      (generateParticleCloud { cloudEnv with random := fun _ => 1/2 }
        cloudFeatures cloudParams).positions[2]? := by rw [heq]
  rw [particleCloud_two _ _ _ (by decide), particleCloud_two _ _ _ (by decide),
    hA, hB] at h2
  simp only [Option.some.injEq] at h2
  norm_num at h2

/-! ## Claim C6 — escape-time emission -/

theorem escapeGo_spec (a b sx sy : ℚ) :
    ∀ f iter, iter + f = 101 → iter ≤ 100 →
      iter ≤ escapeGo a b f (quadOrbit a b sx sy iter).1
          (quadOrbit a b sx sy iter).2 iter ∧
      escapeGo a b f (quadOrbit a b sx sy iter).1
          (quadOrbit a b sx sy iter).2 iter ≤ 100 ∧
      (escapeGo a b f (quadOrbit a b sx sy iter).1
          (quadOrbit a b sx sy iter).2 iter < 100 →
        4 < normSq (quadOrbit a b sx sy (escapeGo a b f
          (quadOrbit a b sx sy iter).1 (quadOrbit a b sx sy iter).2 iter))) ∧
      (∀ k, iter ≤ k →
        k < escapeGo a b f (quadOrbit a b sx sy iter).1
          (quadOrbit a b sx sy iter).2 iter →
        normSq (quadOrbit a b sx sy k) ≤ 4) := by
  intro f
  induction f with
  | zero => intro iter h1 h2; omega
  | succ f ih =>
    intro iter h1 h2
    rw [escapeGo]
    by_cases hc : (quadOrbit a b sx sy iter).1 * (quadOrbit a b sx sy iter).1
        + (quadOrbit a b sx sy iter).2 * (quadOrbit a b sx sy iter).2 ≤ 4
        ∧ iter < 100
    · rw [if_pos hc]
      have hnext1 : (quadOrbit a b sx sy iter).1 * (quadOrbit a b sx sy iter).1
          - (quadOrbit a b sx sy iter).2 * (quadOrbit a b sx sy iter).2 + a
          = (quadOrbit a b sx sy (iter + 1)).1 := rfl
      have hnext2 : 2 * (quadOrbit a b sx sy iter).1 * (quadOrbit a b sx sy iter).2
          + b = (quadOrbit a b sx sy (iter + 1)).2 := rfl
      rw [hnext1, hnext2]
      obtain ⟨g1, g2, g3, g4⟩ := ih (iter + 1) (by omega) (by omega)
      refine ⟨by omega, g2, g3, ?_⟩
      intro k hk1 hk2
      rcases Nat.eq_or_lt_of_le hk1 with rfl | hk1'
      · exact le_of_eq (by rw [normSq]) |>.trans hc.1
      · exact g4 k hk1' hk2
    · rw [if_neg hc]
      refine ⟨le_rfl, h2, ?_, ?_⟩
      · intro hlt
        rcases not_and_or.mp hc with hc' | hc'
        · rw [normSq]; exact lt_of_not_le hc'
        · omega
      · intro k hk1 hk2; omega

/-- The escape loop runs at most 100 iterations, and finishes early exactly
when some orbit point within the first 100 escapes. -/
theorem escapeCount_spec (a b sx sy : ℚ) :
    escapeCount a b sx sy ≤ 100 ∧
    (escapeCount a b sx sy < 100 ↔
      ∃ k, k < 100 ∧ 4 < normSq (quadOrbit a b sx sy k)) := by
  obtain ⟨g1, g2, g3, g4⟩ := escapeGo_spec a b sx sy 101 0 rfl (by omega)
  rw [show escapeGo a b 101 (quadOrbit a b sx sy 0).1 (quadOrbit a b sx sy 0).2 0
    = escapeCount a b sx sy from rfl] at g1 g2 g3 g4
  refine ⟨g2, ?_, ?_⟩
  · intro hlt
    exact ⟨escapeCount a b sx sy, hlt, g3 hlt⟩
  · rintro ⟨k, hk, hesc⟩
    by_contra hge
    have : escapeCount a b sx sy = 100 := by omega
    have := g4 k (Nat.zero_le k) (by omega)
    exact absurd hesc (not_lt.mpr this)

/-- C6: in both escape-time generators every grid sample is iterated under
`x' = x²−y²+a, y' = 2xy+b` for at most 100 steps, and the vertex (with its
colour) for sample `(i,j)` is emitted iff the orbit escapes (`x²+y²>4`)
strictly before the 100-step cap. -/
theorem c6_escape_emission (env : JsEnv) (features : HTMLFeatures)
    (params : FractalParams) (i j : ℕ) :
    escapeCount (mandelX0 features params i) (mandelY0 features params j) 0 0
      ≤ 100 ∧
    escapeCount (juliaCr features) (juliaCi features)
      (juliaStart params i) (juliaStart params j) ≤ 100 ∧
    ((mandelSample env features params i j).1 ≠ [] ↔
      ∃ k, k < 100 ∧ 4 < normSq (quadOrbit (mandelX0 features params i)
        (mandelY0 features params j) 0 0 k)) ∧
    ((mandelSample env features params i j).2 ≠ [] ↔
      (mandelSample env features params i j).1 ≠ []) ∧
    ((juliaSample env features params i j).1 ≠ [] ↔
      ∃ k, k < 100 ∧ 4 < normSq (quadOrbit (juliaCr features) (juliaCi features)
        (juliaStart params i) (juliaStart params j) k)) := by
  obtain ⟨hm1, hm2⟩ := escapeCount_spec (mandelX0 features params i)
    (mandelY0 features params j) 0 0
  obtain ⟨hj1, hj2⟩ := escapeCount_spec (juliaCr features) (juliaCi features)
    (juliaStart params i) (juliaStart params j)
  refine ⟨hm1, hj1, ?_, ?_, ?_⟩
  · rw [← hm2]
    by_cases hlt : escapeCount (mandelX0 features params i)
        (mandelY0 features params j) 0 0 < 100
    · simp [mandelSample, hlt]
    · simp [mandelSample, hlt]
  · by_cases hlt : escapeCount (mandelX0 features params i)
        (mandelY0 features params j) 0 0 < 100
    · simp [mandelSample, hlt]
    · simp [mandelSample, hlt]
  · rw [← hj2]
    by_cases hlt : escapeCount (juliaCr features) (juliaCi features)
        (juliaStart params i) (juliaStart params j) < 100
    · simp [juliaSample, hlt]
    · simp [juliaSample, hlt]

/-! ## Claim C3 — termination and boundedness of the fractal tree -/

theorem childLoop_len (env : JsEnv)
    (step : ℚ → ℚ → ℚ → ℚ → ℚ → ℚ → ℕ → List ℚ × List ℚ × ℕ)
    (bf : ℕ) (ex ey ez nl : ℚ) (L : ℕ)
    (hstep : ∀ a1 a2 a3 a4 a5 a6 k, (step a1 a2 a3 a4 a5 a6 k).1.length = L) :
    ∀ n i k, (childLoop env step bf ex ey ez nl n i k).1.length = n * L := by
  intro n
  induction n with
  | zero => intro i k; simp [childLoop]
  | succ n ih =>
    intro i k
    rw [childLoop]
    simp only [List.length_append, hstep, ih]
    ring

theorem segCount_eq_zero_of_gt {d bf : ℕ} (h : 20 < d) : segCount d bf = 0 := by
  cases d with
  | zero => omega
  | succ e => rw [segCount, if_pos (by omega)]

theorem branchGo_len (env : JsEnv) (params : FractalParams) :
    ∀ f (depth : ℤ) bf (sx sy sz ex ey ez : ℚ) (k : ℕ), depth.toNat ≤ f →
      (generateBranchGo env params f depth bf sx sy sz ex ey ez k).1.length
        = 6 * segCount depth.toNat bf := by
  intro f
  induction f with
  | zero =>
    intro depth bf sx sy sz ex ey ez k hf
    have hz : depth.toNat = 0 := by omega
    rw [hz, generateBranchGo, segCount]
    simp
  | succ f ih =>
    intro depth bf sx sy sz ex ey ez k hf
    rw [generateBranchGo]
    by_cases hg : depth ≤ 0 ∨ 20 < depth
    · rw [if_pos hg]
      rcases hg with hg | hg
      · have hz : depth.toNat = 0 := by omega
        rw [hz, segCount]
        simp
      · have : 20 < depth.toNat := by omega
        rw [segCount_eq_zero_of_gt this]
        simp
    · rw [if_neg hg]
      push_neg at hg
      have hd1 : 0 < depth := by omega
      have hd2 : depth ≤ 20 := hg.2
      obtain ⟨t, ht⟩ : ∃ t, depth.toNat = t + 1 := by
        refine ⟨depth.toNat - 1, ?_⟩; omega
      have hstep : ∀ a1 a2 a3 a4 a5 a6 k',
          ((fun a1 a2 a3 a4 a5 a6 k' =>
            generateBranchGo env params f (depth - 1) (max 2 (bf - 1))
              a1 a2 a3 a4 a5 a6 k') a1 a2 a3 a4 a5 a6 k').1.length
            = 6 * segCount t (max 2 (bf - 1)) := by
        intro a1 a2 a3 a4 a5 a6 k'
        have hsub : (depth - 1).toNat = t := by omega
        rw [← hsub]
        exact ih (depth - 1) (max 2 (bf - 1)) a1 a2 a3 a4 a5 a6 k' (by omega)
      simp only [List.length_cons]
      rw [childLoop_len env _ bf _ _ _ _ _ hstep]
      rw [ht, segCount, if_neg (by omega)]
      ring

theorem segCount_mono :
    ∀ d2, d2 ≤ 20 → ∀ d bf bf2, d ≤ d2 → bf ≤ bf2 →
      segCount d bf ≤ segCount d2 bf2 := by
  intro d2
  induction d2 with
  | zero =>
    intro _ d bf bf2 hd _
    interval_cases d
    exact le_rfl
  | succ d2 ih =>
    intro h20 d bf bf2 hd hbf
    cases d with
    | zero => exact Nat.zero_le _
    | succ e =>
      rw [segCount, segCount, if_neg (by omega), if_neg (by omega)]
      have hmax : max 2 (bf - 1) ≤ max 2 (bf2 - 1) :=
        max_le_max le_rfl (Nat.sub_le_sub_right hbf 1)
      have hrec := ih (by omega) e (max 2 (bf - 1)) (max 2 (bf2 - 1))
        (by omega) hmax
      exact Nat.add_le_add_left (Nat.mul_le_mul hbf hrec) 1

set_option maxRecDepth 2000 in
/-- C3: `generateFractalTree` clamps the recursion depth to
`min (nestingDepth + 6) 12 ≤ 12` and the branching factor to
`min (uniqueTags + 2) 6 ≤ 6`; `generateBranch` returns immediately at any
non-positive depth (each recursive call decreases depth by exactly 1); and for
every input the emitted geometry holds exactly `6 · segCount` vertex
components — at most `6 · 91957` — i.e. at most `segCount 12 6 = 91957` line
segments, a fixed ceiling independent of the document.  (Termination is by
construction: the embedding is total.)  -/
theorem c3_tree_bounded (env : JsEnv) (features : HTMLFeatures)
    (params : FractalParams) :
    min (features.nestingDepth + 6) 12 ≤ 12 ∧
    min (features.uniqueTags + 2) 6 ≤ 6 ∧
    (∀ f bf (n : ℕ) (sx sy sz ex ey ez : ℚ) (k : ℕ),
      generateBranchGo env params f (-(n : ℤ)) bf sx sy sz ex ey ez k
        = ([], [], k)) ∧
    (generateFractalTree env features params).vertices.length
      = 6 * segCount (min (features.nestingDepth + 6) 12)
          (min (features.uniqueTags + 2) 6) ∧
    segCount 12 6 = 91957 ∧
    (generateFractalTree env features params).vertices.length ≤ 6 * 91957 := by
  have hlen : (generateFractalTree env features params).vertices.length
      = 6 * segCount (min (features.nestingDepth + 6) 12)
          (min (features.uniqueTags + 2) 6) := by
    show (generateBranchGo env params 21
      ((min (features.nestingDepth + 6) 12 : ℕ) : ℤ)
      (min (features.uniqueTags + 2) 6) 0 0 0 0 8 0 0).1.length = _
    rw [branchGo_len env params 21 _ _ _ _ _ _ _ _ _ (by omega)]
    have : (((min (features.nestingDepth + 6) 12 : ℕ) : ℤ)).toNat
        = min (features.nestingDepth + 6) 12 := by omega
    rw [this]
  have hcap : segCount 12 6 = 91957 := by decide
  refine ⟨min_le_right _ _, min_le_right _ _, ?_, hlen, hcap, ?_⟩
  · intro f bf n sx sy sz ex ey ez k
    cases f with
    | zero => rfl
    | succ f => rw [generateBranchGo, if_pos (Or.inl (by omega))]
  · rw [hlen]
    have := segCount_mono 12 (by omega)
      (min (features.nestingDepth + 6) 12) (min (features.uniqueTags + 2) 6)
      6 (min_le_right _ _) (min_le_right _ _)
    omega

/-! ## Claim C7 — fallback to the single default section -/

/-- C7: when no section type in the fixed list has a positive tag count,
`createDefaultSections` returns exactly the single `default` section with the
`mandelbrot` algorithm; in particular an empty markup string (whose tag-count
map is empty, first conjunct) yields it, so the generated result is never
empty. -/
theorem c7_default_sections (env : JsEnv) (features : HTMLFeatures)
    (hnone : ∀ t ∈ sectionTypes, lookupCount features.tagCounts t = 0) :
    extractTagCounts [] = [] ∧
    createDefaultSections env features =
      [{ name := "default", algorithm := "mandelbrot", enabled := true
         position := ⟨0, 0, 0⟩, scale := 1 }] := by
  refine ⟨rfl, ?_⟩
  have h1 := hnone "header" (by decide)
  have h2 := hnone "footer" (by decide)
  have h3 := hnone "body" (by decide)
  have h4 := hnone "section" (by decide)
  have h5 := hnone "nav" (by decide)
  have h6 := hnone "main" (by decide)
  have h7 := hnone "article" (by decide)
  simp [createDefaultSections, sectionTypes, List.enum, List.enumFrom,
    List.foldl, h1, h2, h3, h4, h5, h6, h7]

/-- C7 witness: the fallback feature record has no counts for any of the
seven section types, so it yields exactly the default section. -/
theorem c7_witness :
    (∀ t ∈ sectionTypes, lookupCount fallbackFeatures.tagCounts t = 0) ∧
    createDefaultSections trivialEnv fallbackFeatures =
      [{ name := "default", algorithm := "mandelbrot", enabled := true
         position := ⟨0, 0, 0⟩, scale := 1 }] :=
  ⟨by decide, (c7_default_sections trivialEnv fallbackFeatures (by decide)).2⟩

/-! ## Claim C8 — analysis failure is recovered, never surfaced -/

/-- C8: if feature extraction throws during a generation request, the fixed
fallback feature set is substituted (`analyzeCurrentPage` catches the throw)
and the request still completes — an analysis failure never surfaces as a
hard failure. -/
theorem c8_analysis_fallback (e : String) (f : HTMLFeatures)
    (analysis : Except String HTMLFeatures) (pre : Option HTMLFeatures) :
    analyzeCurrentPage (Except.error e) = fallbackFeatures ∧
    analyzeCurrentPage (Except.ok f) = f ∧
    (generateFractalFeatures pre analysis).completed = true ∧
    (generateFractalFeatures none (Except.error e)).featuresUsed
      = fallbackFeatures :=
  ⟨rfl, rfl, rfl, rfl⟩

/-! ## Claim C9 — the adaptive quality step only ever reduces -/

/-- C9: `reduceQuality` maps the pixel ratio to `max 1 (prev − 0.5)` when the
previous ratio exceeds 1 and leaves it unchanged otherwise, and every
points-material size to `max 0.1 (0.8 · prev)`; on the per-frame degrade path
(`animStep` — the only place the frame callback touches quality) the pixel
ratio never increases, and no size increases as long as sizes are at least
0.1 (every size the generators create is ≥ 0.1, and the update keeps sizes
≥ 0.1). -/
theorem c9_quality_monotone (st : QualityState) (n : ℕ) (fps : ℤ)
    (hs : ∀ s ∈ st.sizes, (1 : ℚ)/10 ≤ s) :
    (reduceQuality st).pixelRatio =
      (if 1 < st.pixelRatio then max 1 (st.pixelRatio - 1/2)
       else st.pixelRatio) ∧
    (reduceQuality st).sizes = st.sizes.map (fun s => max (1/10) (s * (8/10))) ∧
    (animStep st n fps).pixelRatio ≤ st.pixelRatio ∧
    List.Forall₂ (fun a b => a ≤ b) (animStep st n fps).sizes st.sizes ∧
    (∀ s ∈ (reduceQuality st).sizes, (1 : ℚ)/10 ≤ s) := by
  have hred : ∀ l : List ℚ, (∀ s ∈ l, (1 : ℚ)/10 ≤ s) →
      List.Forall₂ (fun a b => a ≤ b) (l.map fun s => max (1/10) (s * (8/10))) l := by
    intro l hl
    induction l with
    | nil => exact List.Forall₂.nil
    | cons x xs ih =>
      refine List.Forall₂.cons ?_ (ih fun s hsx => hl s (List.mem_cons_of_mem _ hsx))
      have hx := hl x (List.mem_cons_self x xs)
      have : x * (8/10) ≤ x := by linarith
      exact max_le (by linarith) this
  refine ⟨rfl, rfl, ?_, ?_, ?_⟩
  · unfold animStep
    split
    · show (if 1 < st.pixelRatio then max 1 (st.pixelRatio - 1/2)
        else st.pixelRatio) ≤ st.pixelRatio
      split
      · rename_i hgt
        exact max_le (le_of_lt hgt) (by linarith)
      · exact le_rfl
    · exact le_rfl
  · unfold animStep
    split
    · exact hred st.sizes hs
    · exact List.forall₂_same.mpr fun x _ => le_rfl
  · intro s hsw
    rw [show (reduceQuality st).sizes
      = st.sizes.map (fun s => max (1/10) (s * (8/10))) from rfl] at hsw
    obtain ⟨x, -, rfl⟩ := List.mem_map.mp hsw
    exact le_max_left _ _

/-- C9 witness: the theorem applied at a concrete degraded frame (frame 0,
fps 20, pixel ratio 2, one material of size 0.1). -/
theorem c9_witness :
    (∀ s ∈ (QualityState.mk 2 [1/10]).sizes, (1 : ℚ)/10 ≤ s) ∧
    (animStep ⟨2, [1/10]⟩ 0 20).pixelRatio ≤ (QualityState.mk 2 [1/10]).pixelRatio ∧
    List.Forall₂ (fun a b => a ≤ b) (animStep ⟨2, [1/10]⟩ 0 20).sizes
      (QualityState.mk 2 [1/10]).sizes := by
  have hs : ∀ s ∈ (QualityState.mk 2 [1/10]).sizes, (1 : ℚ)/10 ≤ s := by
    intro s hsx
    rw [List.mem_singleton] at hsx
    exact le_of_eq hsx.symm
  obtain ⟨-, -, h3, h4, -⟩ := c9_quality_monotone ⟨2, [1/10]⟩ 0 20 hs
  exact ⟨hs, h3, h4⟩

/-! ## Claim C4 — switchMode and the mode cache -/

/-- C4 counterexample: the claim "if no prior generation for the mode exists
in the cache, a fresh generation is performed and the result is inserted into
the cache" is false: `FractalViewer.switchToMode` on a cache miss performs no
generation (no event) and leaves the cache without the key — it only logs a
warning and returns. -/
theorem c4_counterexample :
    switchToMode ⟨[], none, none⟩ "dna-helix" = (⟨[], none, none⟩, []) ∧
    cacheGet (switchToMode ⟨[], none, none⟩ "dna-helix").1.cachedModes
      "dna-helix" = none :=
  ⟨rfl, rfl⟩

/-- C4 (amended): on a cache hit `switchToMode` reuses the cached entry with
no recomputation; on a miss it is a no-op (no generation, cache unchanged) —
fresh generation and cache insertion happen only in `generateFractal`.  In
`OptimizedFractalGenerator.switchMode` a known mode is always regenerated
fresh; no per-mode result cache is consulted. -/
theorem c4_switch_mode (st : ViewerState) (mode : String) (h : ℕ)
    (opt : OptState) (modeId : String) (fresh : ℕ) :
    (cacheGet st.cachedModes mode = some h →
      switchToMode st mode =
        ({ st with currentMode := some mode, currentGenerator := some h },
         [SwitchEvent.reusedCache])) ∧
    (cacheGet st.cachedModes mode = none → switchToMode st mode = (st, [])) ∧
    (switchToMode st mode).1.cachedModes = st.cachedModes ∧
    SwitchEvent.generated ∉ (switchToMode st mode).2 ∧
    (modeId ∈ optimizedModeIds ∧ opt.hasFeatures = true →
      optSwitchMode opt modeId fresh =
        ({ opt with currentMesh := some fresh }, [SwitchEvent.generated])) := by
  refine ⟨?_, ?_, ?_, ?_, ?_⟩
  · intro hh
    unfold switchToMode
    rw [hh]
  · intro hh
    unfold switchToMode
    rw [hh]
  · unfold switchToMode
    cases cacheGet st.cachedModes mode <;> rfl
  · unfold switchToMode
    cases cacheGet st.cachedModes mode <;> simp
  · intro hc
    unfold optSwitchMode
    rw [if_pos hc]

/-- C4 witness: the amended theorem at a concrete state with mode `mandala`
cached as handle 7, and an optimized generator with features present. -/
theorem c4_witness :
    cacheGet (ViewerState.mk [("mandala", 7)] none none).cachedModes "mandala"
      = some 7 ∧
    switchToMode ⟨[("mandala", 7)], none, none⟩ "mandala" =
      (⟨[("mandala", 7)], some "mandala", some 7⟩, [SwitchEvent.reusedCache]) ∧
    optSwitchMode ⟨true, none⟩ "mandala" 9 =
      (⟨true, some 9⟩, [SwitchEvent.generated]) := by
  have h := c4_switch_mode ⟨[("mandala", 7)], none, none⟩ "mandala" 7
    ⟨true, none⟩ "mandala" 9
  exact ⟨by decide, h.1 (by decide), h.2.2.2.2 ⟨by decide, rfl⟩⟩

/-! ## Claim C10 — shape of the tag-count map -/

set_option maxRecDepth 100000 in
/-- C10 counterexample: the claim "comments contribute no key at all" is
false: the scan runs over raw text, so a tag-shaped substring inside a
comment is counted. -/
theorem c10_counterexample :
    extractTagCounts "<!--<div>-->".toList = [("div", 1)] ∧
    extractTagCounts "<!--<div>-->".toList ≠ [] := by
  constructor <;> decide

theorem toLower_not_upper (c : Char) :
    ¬(65 ≤ (Char.toLower c).toNat ∧ (Char.toLower c).toNat ≤ 90) := by
  have hdef : Char.toLower c
      = if 65 ≤ c.toNat ∧ c.toNat ≤ 90 then Char.ofNat (c.toNat + 32) else c :=
    rfl
  rw [hdef]
  split
  · rename_i hin
    have hv : (Char.ofNat (c.toNat + 32)).toNat = c.toNat + 32 := by
      unfold Char.ofNat
      rw [dif_pos]
      · rfl
      · exact Or.inl (by omega)
    rw [hv]
    omega
  · rename_i hout
    exact hout

theorem extract_foldl_inv :
    ∀ (ts : List String) (m : List (String × ℕ)),
      (∀ k v, (k, v) ∈ m →
        1 ≤ v ∧ ∀ ch ∈ k.data, ¬(65 ≤ ch.toNat ∧ ch.toNat ≤ 90)) →
      ∀ k v, (k, v) ∈ ts.foldl (fun acc t => addCount acc (lowerStr t)) m →
        1 ≤ v ∧ ∀ ch ∈ k.data, ¬(65 ≤ ch.toNat ∧ ch.toNat ≤ 90) := by
  intro ts
  induction ts with
  | nil => intro m hm; exact hm
  | cons t ts ih =>
    intro m hm
    refine ih (addCount m (lowerStr t)) ?_
    intro k v hkv
    unfold addCount at hkv
    split at hkv
    · obtain ⟨p, hp, hpe⟩ := List.mem_map.mp hkv
      by_cases hpk : p.1 = lowerStr t
      · rw [if_pos hpk] at hpe
        have hmem : (p.1, p.2) ∈ m := by rw [Prod.mk.eta]; exact hp
        have hgood := hm p.1 p.2 hmem
        cases hpe
        exact ⟨by omega, hgood.2⟩
      · rw [if_neg hpk] at hpe
        exact hm k v (hpe ▸ hp)
    · rcases List.mem_append.mp hkv with hin | hnew
      · exact hm k v hin
      · rw [List.mem_singleton, Prod.mk.injEq] at hnew
        obtain ⟨rfl, rfl⟩ := hnew
        refine ⟨le_rfl, ?_⟩
        intro ch hch
        rw [show (lowerStr t).data = t.data.map Char.toLower from rfl] at hch
        obtain ⟨c, -, rfl⟩ := List.mem_map.mp hch
        exact toLower_not_upper c

theorem tagScanGo_nil :
    ∀ f (s : List Char),
      (∀ i, i < s.length →
        ¬(s[i]? = some '<' ∧ Option.any isTagNameChar s[i + 1]? = true)) →
      tagScanGo f s = [] := by
  intro f
  induction f with
  | zero => intro s _; rfl
  | succ f ih =>
    intro s hs
    cases s with
    | nil => rfl
    | cons c rest =>
      have hshift : ∀ i, i < rest.length →
          ¬(rest[i]? = some '<' ∧ Option.any isTagNameChar rest[i + 1]? = true) := by
        intro i hi
        have := hs (i + 1) (by simpa using Nat.succ_lt_succ hi)
        simpa using this
      rw [tagScanGo]
      by_cases hc : c = '<'
      · rw [if_pos hc]
        cases rest with
        | nil => exact ih [] (by intro i hi; simp at hi)
        | cons d rest' =>
          have hd : isTagNameChar d = false := by
            have := hs 0 (by simp)
            rw [hc] at this
            simpa using this
          have hname : (d :: rest').takeWhile isTagNameChar = [] := by
            rw [List.takeWhile_cons]
            simp [hd]
          rw [hname]
          simp only [List.isEmpty_nil, if_true]
          exact ih (d :: rest') hshift
      · rw [if_neg hc]
        exact ih rest hshift

/-- C10 (amended): every entry of the tag-count map has a value ≥ 1 and a key
containing no uppercase ASCII letter; the map depends only on the lowercased
match names, so tags differing only in case accumulate into the same key; and
any input in which no `<` is immediately followed by a tag-name character —
which covers closing tags, bare comments and doctype declarations — yields
the empty map.  However tag-shaped substrings *inside* comments are counted
(`c10_counterexample`): the scan runs over raw text. -/
theorem c10_tag_counts (s : List Char) :
    (∀ k v, (k, v) ∈ extractTagCounts s →
      1 ≤ v ∧ ∀ ch ∈ k.data, ¬(65 ≤ ch.toNat ∧ ch.toNat ≤ 90)) ∧
    extractTagCounts s = ((tagMatches s).map lowerStr).foldl addCount [] ∧
    ((∀ i, i < s.length →
        ¬(s[i]? = some '<' ∧ Option.any isTagNameChar s[i + 1]? = true)) →
      extractTagCounts s = []) := by
  refine ⟨?_, ?_, ?_⟩
  · exact extract_foldl_inv (tagMatches s) [] (by intro k v h; simp at h)
  · exact (List.foldl_map _ _ _ _).symm
  · intro hempty
    unfold extractTagCounts tagMatches
    rw [tagScanGo_nil s.length s hempty]
    rfl

set_option maxRecDepth 100000 in
/-- C10 witness: a document of a closing tag, a comment and a doctype
declaration produces the empty tag-count map. -/
theorem c10_witness :
    (∀ i, i < ("</div><!-- x --><!DOCTYPE html>".toList).length →
      ¬(("</div><!-- x --><!DOCTYPE html>".toList)[i]? = some '<' ∧
        Option.any isTagNameChar
          ("</div><!-- x --><!DOCTYPE html>".toList)[i + 1]? = true)) ∧
    extractTagCounts "</div><!-- x --><!DOCTYPE html>".toList = [] :=
  ⟨by decide, (c10_tag_counts "</div><!-- x --><!DOCTYPE html>".toList).2.2
    (by decide)⟩

end FractalIt
